import Mathlib

/-!
# zedstore table access method: column files, insert, projected scan, size estimate

A shallow embedding of `src/backend/access/zedstore/zedstoream_handler.c`.

Modelling conventions.

* A column file `<relpath>.<att_num+1>` is either absent or holds a list of
  bytes; the files of one relation are given by attribute number.  A column
  file comes into being with the first `fopen(..., "a")` of the insert path.
  `fopen(..., "r")` on an absent file yields `NULL`; the source's `fd < 0` test
  on a `FILE *` can never fire, so the `NULL` is stored and later read through.
* A transfer of more than `SSIZE_MAX` bytes (the width `-1` of a variable-width
  attribute converted to `size_t`) is refused by the system: `fwrite` writes
  nothing, `fread` delivers nothing and sets the error indicator of the
  stream.  Reads of existing files in memory never fail otherwise.
* A `Datum` is its 8-byte object representation.  The array `tts_values` of a
  slot is modelled by its bytes: `Datum` number `i` occupies the bytes
  `8*i .. 8*i+7`.  Pointers are decoded little-endian (x86-64).
* `elog(ERROR, ...)` leaves the function at once; what was written to the
  column files before stays written (the source has no undo), so every
  operation returns the state it reached together with the failure, if any.
* Memory is flat and total: a read of `n` bytes from an address is served for
  every `n` up to `SSIZE_MAX`, also where the C object behind the address is
  shorter.
* `double` values of the size estimator are exact rationals.
-/

namespace ZedStore

set_option maxRecDepth 100000

/-! ## Data model -/

/-- The two fields of `pg_attribute` the access method reads:
`attlen` (an `int16`; negative for variable-width types) and `attbyval`. -/
structure FormData_pg_attribute where
  attlen : Int
  attbyval : Bool
deriving DecidableEq, Repr

/-- The part of `RelationData` used by insert and scan: `rd_att`, the tuple
descriptor (`natts` is the length of the list, `attrs[i]` its `i`-th entry). -/
structure RelationData where
  rd_att : List FormData_pg_attribute
deriving DecidableEq, Repr

/-- The field `relation->rd_att->natts`. -/
def RelationData.natts (relation : RelationData) : Nat := relation.rd_att.length

/-- The column files of one relation, by attribute number: `none` for a file
that does not exist, otherwise the bytes the file holds. -/
structure Files where
  file : Nat → Option (List Nat)

/-- Whether the column file of an attribute exists. -/
def Files.present (fs : Files) (att_num : Nat) : Bool := (fs.file att_num).isSome

/-- The bytes in the column file of an attribute (none when it does not exist). -/
def Files.content (fs : Files) (att_num : Nat) : List Nat := (fs.file att_num).getD []

instance : CoeFun Files (fun _ => Nat → List Nat) := ⟨Files.content⟩

/-- Column files that exist and hold no byte. -/
def emptyFiles : Files := ⟨fun _ => some []⟩

/-- The state of a table just created: no column file exists yet. -/
def noFiles : Files := ⟨fun _ => none⟩

/-- The largest byte count a read or write system call accepts. -/
def SSIZE_MAX : Nat := 2 ^ 63 - 1

/-- Backend memory: the byte stored at each address. -/
abbrev Memory := Nat → Nat

/-- A `Datum`, by its object representation: `d k` is byte `k` (`k < 8`). -/
abbrev Datum := Nat → Nat

/-- Conversion of an `int16` width to the `size_t` that `fwrite`/`fread` take. -/
def size_t_of (n : Int) : Nat := (n % 2 ^ 64).toNat

/-- The macro `DatumGetPointer`: the address held in a `Datum` (little-endian). -/
def DatumGetPointer (d : Datum) : Nat :=
  ((List.range 8).map (fun k => d k * 256 ^ k)).sum

/-- The ways a call can fail to return normally. -/
inductive Failure where
  /-- Message `elog(ERROR, "you are going too fast. zedstore can't handle NULLs currently.")`. -/
  | nulls_unsupported
  /-- Message `elog(ERROR, "file read failed.")`. -/
  | file_read_failed
  /-- The C code leaves the defined language here (`fread` on a handle that is
  `NULL` or was never assigned, an index past an array): the backend
  crashes and the model stops. -/
  | undefined_behaviour
deriving DecidableEq, Repr

/-- A virtual tuple table slot.  `tts_empty` is the `TTS_FLAG_EMPTY` bit of
`tts_flags`; `tts_values` is the `Datum` array seen as bytes. -/
structure TupleTableSlot where
  tts_empty : Bool
  tts_nvalid : Nat
  tts_tupleDescriptor : List FormData_pg_attribute
  tts_values : Nat → Nat
  tts_isnull : Nat → Bool

/-- The value `d[i]` passed to `write_datum_to_file`: a copy of entry `i` of the
array.  Bytes past the 8-byte object are not determined by the source (they are
whatever follows the parameter on the stack) and read as 0; they are reached only
when a pass-by-value attribute declares a width outside 0..8. -/
def datumAt (values : Nat → Nat) (i : Nat) : Datum :=
  fun k => if k < 8 then values (8 * i + k) else 0

/-! ## Insert path -/

/-- The column file of `att_num` after `fopen(path_col, "a")`, the writes and
`fclose`: the file exists (it is created when absent) and holds `content`. -/
def setFile (fs : Files) (att_num : Nat) (content : List Nat) : Files :=
  ⟨fun j => if j = att_num then some content else fs.file j⟩

/-- The call `fwrite(ptr, 1, n, fd)` on a file opened with mode `"a"`: the `n`
bytes found at `ptr` are appended; a request of more than `SSIZE_MAX` bytes
writes nothing (the return value of `fwrite` is not looked at). -/
def fwrite (src : Nat → Nat) (n : Nat) (content : List Nat) : List Nat :=
  if SSIZE_MAX < n then content else content ++ (List.range n).map src

/-- Embedding of `write_datum_to_file`: opens `<relpath>.<att_num+1>` for append
and writes `attlen` bytes, taken from the pointee for a pass-by-reference
attribute and from the `Datum` itself otherwise. -/
def write_datum_to_file (mem : Memory) (fs : Files) (d : Datum) (att_num : Nat)
    (attr : FormData_pg_attribute) : Files :=
  if !attr.attbyval then
    setFile fs att_num
      (fwrite (fun k => mem (DatumGetPointer d + k)) (size_t_of attr.attlen) (fs att_num))
  else
    setFile fs att_num (fwrite d (size_t_of attr.attlen) (fs att_num))

/-- The call `elog(LOG, ...)`: a message for the server log.  Control continues
with the next statement and no file is touched. -/
def elog_LOG (fs : Files) : Files := fs

/-- State after an insert: the column files and the failure raised, if any. -/
structure InsertResult where
  files : Files
  failure : Option Failure

/-- The loop `for (i = 0; i < natts; i++)` of `zedstoream_insert`, from index `i`
over the remaining attributes. -/
def zedstoream_insert_loop (mem : Memory) (slot : TupleTableSlot) :
    List FormData_pg_attribute → Nat → Files → InsertResult
  | [], _, fs => ⟨fs, none⟩
  | attr :: rest, i, fs =>
    let fs1 := if attr.attlen < 0 then elog_LOG fs else fs
    if slot.tts_isnull i then ⟨fs1, some Failure.nulls_unsupported⟩
    else
      zedstoream_insert_loop mem slot rest (i + 1)
        (write_datum_to_file mem fs1 (datumAt slot.tts_values i) i attr)

/-- Embedding of `zedstoream_insert`. -/
def zedstoream_insert (mem : Memory) (relation : RelationData) (slot : TupleTableSlot)
    (fs : Files) : InsertResult :=
  zedstoream_insert_loop mem slot relation.rd_att 0 fs

/-- A sequence of `zedstoream_insert` calls, in order; it stops at the first
call that raises an error. -/
def insert_rows (mem : Memory) (relation : RelationData) :
    List TupleTableSlot → Files → InsertResult
  | [], fs => ⟨fs, none⟩
  | row :: rows, fs =>
    let r := zedstoream_insert mem relation row fs
    match r.failure with
    | none => insert_rows mem relation rows r.files
    | some e => ⟨r.files, some e⟩

/-! ## Scan engine -/

/-- A stdio stream opened for reading: the bytes not yet read, the end-of-file
indicator and the error indicator. -/
structure FILE where
  buf : List Nat
  eof : Bool
  err : Bool
deriving DecidableEq, Repr

/-- The call `fopen(path_col, "r")` on the column file of attribute `att_num`:
a stream at the start of the file, or `NULL` (`none`) when the file does not
exist. -/
def fopen_r (fs : Files) (att_num : Nat) : Option FILE :=
  match fs.file att_num with
  | some content => some ⟨content, false, false⟩
  | none => none

/-- The call `fread(ptr, 1, n, fd)`: the bytes delivered and the stream after the
call.  A request of more than `SSIZE_MAX` bytes fails: nothing is delivered
and the error indicator is set.  Otherwise, when fewer than `n` bytes are left
they are all delivered and the end-of-file indicator is set; the indicators
are never cleared. -/
def fread (n : Nat) (f : FILE) : List Nat × FILE :=
  if SSIZE_MAX < n then ([], { f with err := true })
  else if f.buf.length < n then (f.buf, { f with buf := [], eof := true })
  else (f.buf.take n, { f with buf := f.buf.drop n })

/-- Store bytes into `tts_values` from byte offset `off` on. -/
def storeBytes (values : Nat → Nat) (off : Nat) (bytes : List Nat) : Nat → Nat :=
  fun p => if off ≤ p ∧ p < off + bytes.length then bytes.getD (p - off) 0 else values p

/-- Embedding of `ZedStoreDescData`: the relation scanned, the projection list
(its length is `num_proj_atts`) and the handle array `fds` (`none` where the
entry holds no open stream: it was never assigned, or `fopen` gave `NULL`). -/
structure ZedStoreDescData where
  rs_rd : RelationData
  proj_atts : List Nat
  fds : Nat → Option FILE
  num_proj_atts : Nat

/-- Assign one entry of the handle array. -/
def setFd (fds : Nat → Option FILE) (i : Nat) (f : Option FILE) : Nat → Option FILE :=
  fun j => if j = i then f else fds j

/-- The test `project_columns == NULL || project_columns[i]`: whether the mask
selects attribute `i` (`none` is the `NULL` mask). -/
def selects (project_columns : Option (Nat → Bool)) (i : Nat) : Bool :=
  match project_columns with
  | none => true
  | some mask => mask i

/-- The loop `for (i = 0; i < natts; i++)` of
`zedstoream_beginscan_with_column_projection`, with `todo` iterations left
from index `i`.  `project_columns` is `none` for a `NULL` mask. -/
def beginscan_loop (fs : Files) (project_columns : Option (Nat → Bool)) :
    Nat → Nat → ZedStoreDescData → ZedStoreDescData
  | 0, _, scan => scan
  | todo + 1, i, scan =>
    if selects project_columns i then
      beginscan_loop fs project_columns todo (i + 1)
        { scan with
          proj_atts := scan.proj_atts ++ [i]
          num_proj_atts := scan.num_proj_atts + 1
          fds := setFd scan.fds i (fopen_r fs i) }
    else
      beginscan_loop fs project_columns todo (i + 1) scan

/-- Embedding of `zedstoream_beginscan_with_column_projection` (the scan keys,
snapshot and strategy flags are stored and never read again). -/
def zedstoream_beginscan_with_column_projection (relation : RelationData) (fs : Files)
    (project_columns : Option (Nat → Bool)) : ZedStoreDescData :=
  beginscan_loop fs project_columns relation.natts 0
    { rs_rd := relation, proj_atts := [], fds := fun _ => none, num_proj_atts := 0 }

/-- Embedding of `zedstoream_beginscan`: the projection mask is `NULL`. -/
def zedstoream_beginscan (relation : RelationData) (fs : Files) : ZedStoreDescData :=
  zedstoream_beginscan_with_column_projection relation fs none

/-- Modelled from the spec: `ExecClearTuple` of the host executor, which is not
in this file; for a virtual slot "the row buffer is marked empty/invalid for
this call", that is `tts_nvalid = 0` and `TTS_FLAG_EMPTY` set. -/
def ExecClearTuple (slot : TupleTableSlot) : TupleTableSlot :=
  { slot with tts_nvalid := 0, tts_empty := true }

/-- How the attribute loop of `zedstoream_getnextslot` was left. -/
inductive LoopExit where
  /-- The loop ran to `i = num_proj_atts`. -/
  | completed
  /-- The statement `return slot` after `ExecClearTuple`. -/
  | returned
  /-- An error was raised. -/
  | raised (e : Failure)
deriving DecidableEq, Repr

/-- State after the attribute loop. -/
structure LoopResult where
  scan : ZedStoreDescData
  slot : TupleTableSlot
  exit : LoopExit

/-- The loop `for (int i = 0; i < scan->num_proj_atts; i++)` of
`zedstoream_getnextslot`, with `todo` iterations left from index `i`.  The
width handed to `fread` is `attrs[i].attlen`, indexed by the loop counter. -/
def getnextslot_loop : Nat → Nat → ZedStoreDescData → TupleTableSlot → LoopResult
  | 0, _, scan, slot => ⟨scan, slot, LoopExit.completed⟩
  | todo + 1, i, scan, slot =>
    match scan.proj_atts[i]?, slot.tts_tupleDescriptor[i]? with
    | some natt, some attr =>
      match scan.fds natt with
      | none => ⟨scan, slot, LoopExit.raised Failure.undefined_behaviour⟩
      | some f =>
        let r := fread (size_t_of attr.attlen) f
        let scan1 := { scan with fds := setFd scan.fds natt (some r.2) }
        let slot1 := { slot with tts_values := storeBytes slot.tts_values (8 * natt) r.1 }
        if r.2.err then ⟨scan1, slot1, LoopExit.raised Failure.file_read_failed⟩
        else if r.2.eof then ⟨scan1, ExecClearTuple slot1, LoopExit.returned⟩
        else
          getnextslot_loop todo (i + 1) scan1
            { slot1 with tts_isnull := fun j => if j = natt then false else slot1.tts_isnull j }
    | _, _ => ⟨scan, slot, LoopExit.raised Failure.undefined_behaviour⟩

/-- State after a call of `zedstoream_getnextslot`. -/
structure ScanResult where
  scan : ZedStoreDescData
  slot : TupleTableSlot
  failure : Option Failure

/-- Embedding of `zedstoream_getnextslot`.  The `Assert` on `num_proj_atts` is
compiled out of production builds and is not part of the function. -/
def zedstoream_getnextslot (scan : ZedStoreDescData) (slot : TupleTableSlot) : ScanResult :=
  let slot0 := { slot with tts_nvalid := 0, tts_empty := true }
  let r := getnextslot_loop scan.num_proj_atts 0 scan slot0
  match r.exit with
  | LoopExit.completed =>
    ⟨r.scan,
     { r.slot with tts_nvalid := r.slot.tts_tupleDescriptor.length, tts_empty := false }, none⟩
  | LoopExit.returned => ⟨r.scan, r.slot, none⟩
  | LoopExit.raised e => ⟨r.scan, r.slot, some e⟩

/-- The state after `k` successive calls of `zedstoream_getnextslot` on the same
cursor and slot; a call that raises an error ends the sequence. -/
def scan_calls : Nat → ZedStoreDescData → TupleTableSlot → ScanResult
  | 0, scan, slot => ⟨scan, slot, none⟩
  | k + 1, scan, slot =>
    let r := zedstoream_getnextslot scan slot
    match r.failure with
    | none => scan_calls k r.scan r.slot
    | some e => ⟨r.scan, r.slot, some e⟩

/-! ## Size estimator -/

/-- The fields of `pg_class` read by the estimator (`rel->rd_rel`): `relpages`
and `relallvisible` are `int32`, `reltuples` is a `float4`. -/
structure FormData_pg_class where
  relpages : Int
  reltuples : ℚ
  relallvisible : Int
  relhassubclass : Bool

/-- Constants of the page layout, defined in headers outside this file:
`BLCKSZ`, `SizeOfPageHeaderData`, `MAXALIGN(SizeofHeapTupleHeader)` and
`sizeof(ItemIdData)`. -/
structure PageLayout where
  BLCKSZ : Int
  SizeOfPageHeaderData : Int
  MAXALIGN_SizeofHeapTupleHeader : Int
  sizeof_ItemIdData : Int

/-- The layout of a default build: 8192-byte blocks, 24-byte page header,
24-byte aligned tuple header, 4-byte line pointer. -/
def defaultLayout : PageLayout := ⟨8192, 24, 24, 4⟩

/-- The outputs `*pages`, `*tuples` and `*allvisfrac`. -/
structure SizeEstimate where
  pages : Nat
  tuples : ℚ
  allvisfrac : ℚ

/-- The cast `(BlockNumber) x` of an `int32` to `uint32`. -/
def toBlockNumber (x : Int) : Nat := (x % 2 ^ 32).toNat

/-- Wrap an integer to `int32`. -/
def toInt32 (x : Int) : Int := (x + 2 ^ 31) % 2 ^ 32 - 2 ^ 31

/-- The C library function `rint` in the default rounding mode: the nearest
integer, ties to the even one. -/
def rint (x : ℚ) : ℚ :=
  let f : Int := ⌊x⌋
  if x - f < 1 / 2 then f
  else if 1 / 2 < x - f then f + 1
  else if f % 2 = 0 then f else f + 1

/-- Embedding of `zedstoream_estimate_rel_size`.  `nblocks` is the value of
`RelationGetNumberOfBlocks(rel)`, `get_rel_data_width` the planner function of
that name (neither is in this file; both are taken as given).  The integer
division uses the `size_t` operands of the C expression; a zero divisor, where
C traps, yields 0. -/
def zedstoream_estimate_rel_size (layout : PageLayout) (nblocks : Nat)
    (rd_rel : FormData_pg_class) (get_rel_data_width : List Int → Int)
    (attr_widths : List Int) : SizeEstimate :=
  let relpages := toBlockNumber rd_rel.relpages
  let reltuples : ℚ := rd_rel.reltuples
  let relallvisible := toBlockNumber rd_rel.relallvisible
  let curpages : Nat :=
    if nblocks < 10 ∧ relpages = 0 ∧ rd_rel.relhassubclass = false then 10 else nblocks
  if curpages = 0 then ⟨curpages, 0, 0⟩
  else
    let density : ℚ :=
      if relpages > 0 then reltuples / (relpages : ℚ)
      else
        let tuple_width := toInt32 (toInt32 (get_rel_data_width attr_widths
          + layout.MAXALIGN_SizeofHeapTupleHeader) + layout.sizeof_ItemIdData)
        ((size_t_of (layout.BLCKSZ - layout.SizeOfPageHeaderData) / size_t_of tuple_width : Nat) : ℚ)
    let tuples := rint (density * (curpages : ℚ))
    let allvisfrac : ℚ :=
      if relallvisible = 0 ∨ curpages ≤ 0 then 0
      else if (relallvisible : ℚ) ≥ (curpages : ℚ) then 1
      else (relallvisible : ℚ) / (curpages : ℚ)
    ⟨curpages, tuples, allvisfrac⟩

/-! ## Concrete tables and rows used by the scenarios -/

/-- A 4-byte pass-by-value attribute (`int4`). -/
def int4Attr : FormData_pg_attribute := ⟨4, true⟩

/-- An 8-byte pass-by-value attribute (`int8`). -/
def int8Attr : FormData_pg_attribute := ⟨8, true⟩

/-- Byte `k` of the little-endian representation of a 64-bit word. -/
def wordByte (w : Nat) (k : Nat) : Nat := (w / 256 ^ k) % 256

/-- The bytes of a `Datum` array holding the given 64-bit words. -/
def valuesOf (ws : List Nat) : Nat → Nat :=
  fun p => wordByte (ws.getD (p / 8) 0) (p % 8)

/-- A slot holding the given words, none of them null. -/
def rowOf (desc : List FormData_pg_attribute) (ws : List Nat) : TupleTableSlot :=
  ⟨false, desc.length, desc, valuesOf ws, fun _ => false⟩

/-- A cleared slot for the given descriptor, all bytes zero. -/
def blankSlot (desc : List FormData_pg_attribute) : TupleTableSlot :=
  ⟨true, 0, desc, fun _ => 0, fun _ => true⟩

/-- The 64-bit word held in entry `i` of a `Datum` array. -/
def wordAt (values : Nat → Nat) (i : Nat) : Nat := DatumGetPointer (datumAt values i)

/-- The two-column `(int4, int4)` table of the scenarios. -/
def relII : RelationData := ⟨[int4Attr, int4Attr]⟩

/-! ## Vocabulary of the statements -/

/-- Entry `a` of a tuple descriptor (`attrs[a]`), for `a` within the descriptor. -/
def attrAt (attrs : List FormData_pg_attribute) (a : Nat) : FormData_pg_attribute :=
  attrs.getD a ⟨0, true⟩

/-- The bytes `write_datum_to_file` appends for entry `a` of a row. -/
def recordBytes (mem : Memory) (values : Nat → Nat) (a : Nat)
    (attr : FormData_pg_attribute) : List Nat :=
  if SSIZE_MAX < size_t_of attr.attlen then []
  else
    (List.range (size_t_of attr.attlen)).map
      (if !attr.attbyval then fun k => mem (DatumGetPointer (datumAt values a) + k)
       else datumAt values a)

/-- The number of bytes `write_datum_to_file` appends for an attribute: its
width as a `size_t`, or nothing when the request exceeds `SSIZE_MAX`. -/
def writtenSize (attr : FormData_pg_attribute) : Nat :=
  if SSIZE_MAX < size_t_of attr.attlen then 0 else size_t_of attr.attlen

/-- The records of attribute `a` of a list of rows, one after the other. -/
def columnBytes (mem : Memory) (attr : FormData_pg_attribute) (a : Nat) :
    List TupleTableSlot → List Nat
  | [] => []
  | row :: rows => recordBytes mem row.tts_values a attr ++ columnBytes mem attr a rows

/-- A fixed-width pass-by-value attribute: `attbyval` with a width of 1 to 8
bytes (the catalog admits the widths 1, 2, 4 and 8). -/
def FixedByVal (attr : FormData_pg_attribute) : Prop :=
  attr.attbyval = true ∧ 1 ≤ attr.attlen ∧ attr.attlen ≤ 8

instance (attr : FormData_pg_attribute) : Decidable (FixedByVal attr) := by
  unfold FixedByVal; infer_instance

/-- A fixed-width attribute: a non-negative `int16` width. -/
def FixedWidth (attr : FormData_pg_attribute) : Prop :=
  0 ≤ attr.attlen ∧ attr.attlen ≤ 32767

instance (attr : FormData_pg_attribute) : Decidable (FixedWidth attr) := by
  unfold FixedWidth; infer_instance

/-- No entry of the row is null, over the `natts` attributes of the relation. -/
def NoNulls (natts : Nat) (row : TupleTableSlot) : Prop :=
  ∀ i < natts, row.tts_isnull i = false

instance (natts : Nat) (row : TupleTableSlot) : Decidable (NoNulls natts row) := by
  unfold NoNulls; infer_instance

/-- Memory with the six bytes 17, 34, 51, 68, 85, 102 at address 1000 and zero
elsewhere. -/
def macMemory : Memory := fun p => if 1000 ≤ p ∧ p < 1006 then 17 * (p - 999) else 0

/-- A one-column table whose attribute is 6 bytes wide and passed by
reference (such as `macaddr`). -/
def relMac : RelationData := ⟨[⟨6, false⟩]⟩

/-- A one-column table whose attribute has variable width (`attlen = -1`, by
reference, such as `text`). -/
def relText : RelationData := ⟨[⟨-1, false⟩]⟩

/-- The `(int4, text)` table. -/
def relIT : RelationData := ⟨[int4Attr, ⟨-1, false⟩]⟩

/-- The `(int4, int8)` table. -/
def relIL : RelationData := ⟨[int4Attr, int8Attr]⟩

/-- The table without attributes. -/
def relNone : RelationData := ⟨[]⟩

/-- The rows `(1,10)`, `(2,20)`, `(3,30)` of the scenario. -/
def rows123 : List TupleTableSlot :=
  [rowOf relII.rd_att [1, 10], rowOf relII.rd_att [2, 20], rowOf relII.rd_att [3, 30]]

/-- The row `(4, NULL)`. -/
def rowNullSecond : TupleTableSlot :=
  { rowOf relII.rd_att [4, 0] with tts_isnull := fun i => decide (i = 1) }

/-- The mask selecting attribute 1 only. -/
def maskSecond : Nat → Bool := fun i => decide (i = 1)

/-- A cursor of a full scan in front of the given rows: every attribute is
projected and its stream holds the records of these rows, with neither
indicator set. -/
def FullCursor (mem : Memory) (attrs : List FormData_pg_attribute)
    (rows : List TupleTableSlot) (scan : ZedStoreDescData) : Prop :=
  scan.proj_atts = List.range attrs.length ∧ scan.num_proj_atts = attrs.length ∧
  ∀ a, a < attrs.length →
    scan.fds a = some ⟨columnBytes mem (attrAt attrs a) a rows, false, false⟩

/-- Whether a handle is open and its error indicator is clear. -/
def handleOk (h : Option FILE) : Bool :=
  match h with
  | some f => !f.err
  | none => false

/-- A cursor and slot on which `zedstoream_getnextslot` stays within defined
behaviour and meets no read error: the projection list and the descriptor
cover the loop counter, every projected attribute has an open handle with a
clear error indicator, and every width the loop hands to `fread` is that of a
fixed-width attribute. -/
def WellFormedScan (scan : ZedStoreDescData) (slot : TupleTableSlot) : Prop :=
  scan.num_proj_atts ≤ scan.proj_atts.length ∧
  scan.num_proj_atts ≤ slot.tts_tupleDescriptor.length ∧
  (∀ natt ∈ scan.proj_atts, handleOk (scan.fds natt) = true) ∧
  ∀ attr ∈ slot.tts_tupleDescriptor.take scan.num_proj_atts, FixedWidth attr

instance (scan : ZedStoreDescData) (slot : TupleTableSlot) :
    Decidable (WellFormedScan scan slot) := by
  unfold WellFormedScan; infer_instance

/-- Whether the read of iteration `i` of the attribute loop, made on the cursor
as it stands, ends at end-of-file: the indicator is already set or fewer
bytes are left than the width requested. -/
def hitsEOF (scan : ZedStoreDescData) (slot : TupleTableSlot) (i : Nat) : Bool :=
  match scan.proj_atts[i]?, slot.tts_tupleDescriptor[i]? with
  | some natt, some attr =>
    match scan.fds natt with
    | some f => f.eof || decide (f.buf.length < size_t_of attr.attlen)
    | none => false
  | _, _ => false

/-- Memory that is zero everywhere. -/
def zeroMemory : Memory := fun _ => 0

/-- The row of `relMac` whose entry is a pointer to address 1000. -/
def macRow : TupleTableSlot := rowOf relMac.rd_att [1000]

/-- State after inserting `macRow` into the empty column files of `relMac`. -/
def macInserted : InsertResult := zedstoream_insert macMemory relMac macRow emptyFiles

/-- State after the first `zedstoream_getnextslot` of a full scan of `relMac`
that follows the insert of `macRow`. -/
def macScanned : ScanResult :=
  scan_calls 1 (zedstoream_beginscan relMac macInserted.files) (blankSlot relMac.rd_att)

/-- The column files of `relII` after the three rows of the scenario. -/
def files123 : Files := (insert_rows zeroMemory relII rows123 emptyFiles).files

/-- The row of `relText` whose entry is a pointer to address 1000. -/
def textRow : TupleTableSlot := rowOf relText.rd_att [1000]

/-- Two rows of the `(int4, text)` table. -/
def rowsIT : List TupleTableSlot := [rowOf relIT.rd_att [1, 1000], rowOf relIT.rd_att [2, 1000]]

/-- Two rows `(1,10)`, `(2,20)` of the `(int4, int8)` table. -/
def rowsIL : List TupleTableSlot := [rowOf relIL.rd_att [1, 10], rowOf relIL.rd_att [2, 20]]

/-- The column files of `relIL` after the rows `rowsIL`. -/
def filesIL : Files := (insert_rows zeroMemory relIL rowsIL emptyFiles).files

/-- State after `k` calls of `zedstoream_getnextslot` of a full scan opened on
the column files that the inserts of `rows`, in order, leave behind when they
start from the column files `fs0`. -/
def insert_then_scan (mem : Memory) (relation : RelationData) (rows : List TupleTableSlot)
    (fs0 : Files) (slot : TupleTableSlot) (k : Nat) : ScanResult :=
  scan_calls k (zedstoream_beginscan relation (insert_rows mem relation rows fs0).files) slot

/-- One row of the table without attributes. -/
def rowsNone : List TupleTableSlot := [rowOf relNone.rd_att []]

/-- A catalog entry of a table never vacuumed: no recorded pages, tuples or
all-visible pages, no sub-relations. -/
def freshClass : FormData_pg_class := ⟨0, 0, 0, false⟩

/-- A catalog entry with 3 recorded pages, 7 tuples and 2 all-visible pages. -/
def analyzedClass : FormData_pg_class := ⟨3, 7, 2, false⟩

/-- A stand-in for `get_rel_data_width`: the sum of the widths given. -/
def sumWidths : List Int → Int := fun ws => ws.sum

/-- One row `(1, pointer 1000)` of the `(int4, text)` table. -/
def rowIT : TupleTableSlot := rowOf relIT.rd_att [1, 1000]

/-- The column files of the `(int4, text)` table after the insert of `rowIT`
into a table just created. -/
def filesIT : Files := (zedstoream_insert macMemory relIT rowIT noFiles).files

/-! ## Insert path: what a call writes -/

theorem setFile_content (fs : Files) (a : Nat) (c : List Nat) (j : Nat) :
    (setFile fs a c).content j = if j = a then c else fs.content j := by
  unfold setFile Files.content
  by_cases h : j = a <;> simp [h]

theorem setFile_present (fs : Files) (a : Nat) (c : List Nat) (j : Nat) :
    (setFile fs a c).present j = (decide (j = a) || fs.present j) := by
  unfold setFile Files.present
  by_cases h : j = a <;> simp [h]

theorem fopen_r_of_present (fs : Files) (a : Nat) (h : fs.present a = true) :
    fopen_r fs a = some ⟨fs a, false, false⟩ := by
  unfold fopen_r
  unfold Files.present at h
  unfold Files.content
  cases hf : fs.file a with
  | none => rw [hf] at h; exact absurd h (by decide)
  | some c => simp

theorem size_t_of_nonneg (n : Int) (h0 : 0 ≤ n) (h1 : n < 2 ^ 64) : size_t_of n = n.toNat := by
  unfold size_t_of
  rw [Int.emod_eq_of_lt h0 h1]

theorem recordBytes_length (mem : Memory) (values : Nat → Nat) (a : Nat)
    (attr : FormData_pg_attribute) :
    (recordBytes mem values a attr).length = writtenSize attr := by
  unfold recordBytes writtenSize
  split <;> simp

theorem columnBytes_length (mem : Memory) (attr : FormData_pg_attribute) (a : Nat)
    (rows : List TupleTableSlot) :
    (columnBytes mem attr a rows).length = rows.length * writtenSize attr := by
  induction rows with
  | nil => simp [columnBytes]
  | cons row rows ih =>
    simp only [columnBytes, List.length_append, ih, recordBytes_length, List.length_cons]
    ring

theorem write_datum_to_file_eq (mem : Memory) (fs : Files) (values : Nat → Nat) (a : Nat)
    (attr : FormData_pg_attribute) :
    write_datum_to_file mem fs (datumAt values a) a attr
      = setFile fs a (fs a ++ recordBytes mem values a attr) := by
  unfold write_datum_to_file recordBytes fwrite
  by_cases hbig : SSIZE_MAX < size_t_of attr.attlen
  · cases attr.attbyval <;> simp [hbig]
  · cases attr.attbyval <;> simp [hbig]

theorem attrAt_cons_succ (attr : FormData_pg_attribute) (rest : List FormData_pg_attribute)
    (k : Nat) : attrAt (attr :: rest) (k + 1) = attrAt rest k := by
  simp [attrAt]

theorem attrAt_getElem? (attrs : List FormData_pg_attribute) (a : Nat) (h : a < attrs.length) :
    attrs[a]? = some (attrAt attrs a) := by
  simp [attrAt, List.getD_eq_getElem?_getD, List.getElem?_eq_getElem h]

/-- A row without nulls passes the loop of `zedstoream_insert`: no error, and
each attribute met gains exactly its record. -/
theorem insert_loop_nonnull (mem : Memory) (slot : TupleTableSlot) :
    ∀ (attrs : List FormData_pg_attribute) (i : Nat) (fs : Files),
      (∀ k < attrs.length, slot.tts_isnull (i + k) = false) →
      (zedstoream_insert_loop mem slot attrs i fs).failure = none ∧
      ∀ a, (zedstoream_insert_loop mem slot attrs i fs).files a =
          (if i ≤ a ∧ a < i + attrs.length then
            fs a ++ recordBytes mem slot.tts_values a (attrAt attrs (a - i))
          else fs a) ∧
        (zedstoream_insert_loop mem slot attrs i fs).files.present a =
          (decide (i ≤ a ∧ a < i + attrs.length) || fs.present a) := by
  intro attrs
  induction attrs with
  | nil =>
    intro i fs _
    refine ⟨by simp [zedstoream_insert_loop], ?_⟩
    intro a
    have hno : ¬ (i ≤ a ∧ a < i + ([] : List FormData_pg_attribute).length) := by
      simp only [List.length_nil]; omega
    rw [if_neg hno]
    simp [zedstoream_insert_loop, hno]
  | cons attr rest ih =>
    intro i fs hnn
    have h0 : slot.tts_isnull i = false := by simpa using hnn 0 (by simp)
    have hrest : ∀ k < rest.length, slot.tts_isnull (i + 1 + k) = false := by
      intro k hk
      have := hnn (k + 1) (by simp; omega)
      rwa [show i + 1 + k = i + (k + 1) by omega]
    have hstep : zedstoream_insert_loop mem slot (attr :: rest) i fs
        = zedstoream_insert_loop mem slot rest (i + 1)
            (setFile fs i (fs i ++ recordBytes mem slot.tts_values i attr)) := by
      simp [zedstoream_insert_loop, h0, elog_LOG, write_datum_to_file_eq]
    rw [hstep]
    obtain ⟨hf, hfiles⟩ := ih (i + 1) _ hrest
    refine ⟨hf, ?_⟩
    intro a
    rw [(hfiles a).1, (hfiles a).2]
    by_cases hai : a = i
    · subst hai
      have hno : ¬ (a + 1 ≤ a ∧ a < a + 1 + rest.length) := by omega
      have hyes : a ≤ a ∧ a < a + (attr :: rest).length := by
        simp only [List.length_cons]; omega
      rw [if_neg hno, if_pos hyes, decide_eq_false hno, decide_eq_true hyes]
      simp [setFile_content, setFile_present, attrAt]
    · by_cases hlo : i + 1 ≤ a ∧ a < i + 1 + rest.length
      · have h2 : i ≤ a ∧ a < i + (attr :: rest).length := by
          simp only [List.length_cons]; omega
        rw [if_pos hlo, if_pos h2]
        have h3 : a - i = (a - (i + 1)) + 1 := by omega
        rw [h3, attrAt_cons_succ, decide_eq_true hlo, decide_eq_true h2]
        simp [setFile_content, setFile_present, hai]
      · have h2 : ¬ (i ≤ a ∧ a < i + (attr :: rest).length) := by
          simp only [List.length_cons]; omega
        rw [if_neg hlo, if_neg h2, decide_eq_false hlo, decide_eq_false h2]
        simp [setFile_content, setFile_present, hai]

/-- The call `zedstoream_insert` on a row without nulls: no error, each column
file of the relation exists afterwards and has gained its record. -/
theorem insert_nonnull (mem : Memory) (relation : RelationData) (slot : TupleTableSlot)
    (fs : Files) (hnn : NoNulls relation.natts slot) :
    (zedstoream_insert mem relation slot fs).failure = none ∧
    ∀ a, (zedstoream_insert mem relation slot fs).files a =
        (if a < relation.natts then
          fs a ++ recordBytes mem slot.tts_values a (attrAt relation.rd_att a)
        else fs a) ∧
      (zedstoream_insert mem relation slot fs).files.present a =
        (decide (a < relation.natts) || fs.present a) := by
  have h := insert_loop_nonnull mem slot relation.rd_att 0 fs
    (by intro k hk; simpa using hnn k hk)
  simpa [zedstoream_insert, RelationData.natts] using h

/-- A sequence of inserts of rows without nulls: no error, and each column file
gains the records of its attribute in insertion order; after the first insert
every column file of the relation exists. -/
theorem insert_rows_nonnull (mem : Memory) (relation : RelationData) :
    ∀ (rows : List TupleTableSlot) (fs : Files),
      (∀ row ∈ rows, NoNulls relation.natts row) →
      (insert_rows mem relation rows fs).failure = none ∧
      ∀ a, (insert_rows mem relation rows fs).files a =
          (if a < relation.natts then
            fs a ++ columnBytes mem (attrAt relation.rd_att a) a rows
          else fs a) ∧
        (insert_rows mem relation rows fs).files.present a =
          ((decide (a < relation.natts) && !rows.isEmpty) || fs.present a) := by
  intro rows
  induction rows with
  | nil => intro fs _; simp [insert_rows, columnBytes]
  | cons row rows ih =>
    intro fs hnn
    obtain ⟨hf, hfiles⟩ := insert_nonnull mem relation row fs (hnn row (by simp))
    have hstep : insert_rows mem relation (row :: rows) fs
        = insert_rows mem relation rows (zedstoream_insert mem relation row fs).files := by
      simp [insert_rows, hf]
    rw [hstep]
    obtain ⟨hf2, hfiles2⟩ := ih (zedstoream_insert mem relation row fs).files
      (fun r hr => hnn r (by simp [hr]))
    refine ⟨hf2, ?_⟩
    intro a
    rw [(hfiles2 a).1, (hfiles2 a).2, (hfiles a).1, (hfiles a).2]
    by_cases ha : a < relation.natts
    · simp [ha, columnBytes]
    · simp [ha]

/-- A row whose first null entry is entry `n0` of the attributes still to be
written: the loop of `zedstoream_insert` raises the error for nulls, after the
`n0` attributes before it have each gained their record. -/
theorem insert_loop_first_null (mem : Memory) (slot : TupleTableSlot) :
    ∀ (attrs : List FormData_pg_attribute) (i : Nat) (fs : Files) (n0 : Nat),
      n0 < attrs.length →
      (∀ k < n0, slot.tts_isnull (i + k) = false) →
      slot.tts_isnull (i + n0) = true →
      (zedstoream_insert_loop mem slot attrs i fs).failure = some Failure.nulls_unsupported ∧
      ∀ a, (zedstoream_insert_loop mem slot attrs i fs).files a =
        if i ≤ a ∧ a < i + n0 then
          fs a ++ recordBytes mem slot.tts_values a (attrAt attrs (a - i))
        else fs a := by
  intro attrs
  induction attrs with
  | nil => intro i fs n0 h; simp at h
  | cons attr rest ih =>
    intro i fs n0 hn0 hbefore hnull
    cases n0 with
    | zero =>
      have h0 : slot.tts_isnull i = true := by simpa using hnull
      refine ⟨by simp [zedstoream_insert_loop, h0], ?_⟩
      intro a
      have hno : ¬ (i ≤ a ∧ a < i + 0) := by omega
      rw [if_neg hno]
      simp [zedstoream_insert_loop, h0, elog_LOG]
    | succ n0 =>
      have h0 : slot.tts_isnull i = false := by simpa using hbefore 0 (by omega)
      have hstep : zedstoream_insert_loop mem slot (attr :: rest) i fs
          = zedstoream_insert_loop mem slot rest (i + 1)
              (setFile fs i (fs i ++ recordBytes mem slot.tts_values i attr)) := by
        simp [zedstoream_insert_loop, h0, elog_LOG, write_datum_to_file_eq]
      rw [hstep]
      obtain ⟨hf, hfiles⟩ := ih (i + 1)
        (setFile fs i (fs i ++ recordBytes mem slot.tts_values i attr)) n0
        (by simpa using hn0)
        (by
          intro k hk
          have := hbefore (k + 1) (by omega)
          rwa [show i + 1 + k = i + (k + 1) by omega])
        (by rwa [show i + 1 + n0 = i + (n0 + 1) by omega])
      refine ⟨hf, ?_⟩
      intro a
      rw [hfiles a]
      by_cases hai : a = i
      · subst hai
        have hno : ¬ (a + 1 ≤ a ∧ a < a + 1 + n0) := by omega
        have hyes : a ≤ a ∧ a < a + (n0 + 1) := by omega
        rw [if_neg hno, if_pos hyes]
        simp [setFile_content, setFile_present, attrAt]
      · by_cases hlo : i + 1 ≤ a ∧ a < i + 1 + n0
        · have h2 : i ≤ a ∧ a < i + (n0 + 1) := by omega
          rw [if_pos hlo, if_pos h2]
          have h3 : a - i = (a - (i + 1)) + 1 := by omega
          rw [h3, attrAt_cons_succ]
          simp [setFile_content, setFile_present, hai]
        · have h2 : ¬ (i ≤ a ∧ a < i + (n0 + 1)) := by omega
          rw [if_neg hlo, if_neg h2]
          simp [setFile_content, setFile_present, hai]

/-- The call `zedstoream_insert` on a row whose first null entry is attribute
`n0`: the error for nulls is raised, the files of the attributes before `n0`
have each gained a record, the files from `n0` on are unchanged. -/
theorem insert_first_null (mem : Memory) (relation : RelationData) (slot : TupleTableSlot)
    (fs : Files) (n0 : Nat) (hn0 : n0 < relation.natts)
    (hbefore : ∀ k < n0, slot.tts_isnull k = false) (hnull : slot.tts_isnull n0 = true) :
    (zedstoream_insert mem relation slot fs).failure = some Failure.nulls_unsupported ∧
    ∀ a, (zedstoream_insert mem relation slot fs).files a =
      if a < n0 then fs a ++ recordBytes mem slot.tts_values a (attrAt relation.rd_att a)
      else fs a := by
  have h := insert_loop_first_null mem slot relation.rd_att 0 fs n0 hn0
    (by intro k hk; simpa using hbefore k hk) (by simpa using hnull)
  simpa [zedstoream_insert] using h

/-! ## Scan engine: opening a cursor -/

theorem beginscan_loop_spec (fs : Files) (pc : Option (Nat → Bool)) :
    ∀ (todo i : Nat) (scan : ZedStoreDescData),
      (beginscan_loop fs pc todo i scan).rs_rd = scan.rs_rd ∧
      (beginscan_loop fs pc todo i scan).proj_atts
        = scan.proj_atts ++ (List.range' i todo).filter (selects pc) ∧
      (beginscan_loop fs pc todo i scan).num_proj_atts
        = scan.num_proj_atts + ((List.range' i todo).filter (selects pc)).length ∧
      ∀ a, (beginscan_loop fs pc todo i scan).fds a =
        if i ≤ a ∧ a < i + todo ∧ selects pc a = true then fopen_r fs a
        else scan.fds a := by
  intro todo
  induction todo with
  | zero =>
    intro i scan
    refine ⟨by simp [beginscan_loop], by simp [beginscan_loop], by simp [beginscan_loop], ?_⟩
    intro a
    have hno : ¬ (i ≤ a ∧ a < i + 0 ∧ selects pc a = true) := by omega
    rw [if_neg hno]
    simp [beginscan_loop]
  | succ todo ih =>
    intro i scan
    by_cases hs : selects pc i = true
    · obtain ⟨h1, h2, h3, h4⟩ := ih (i + 1)
        { scan with
          proj_atts := scan.proj_atts ++ [i]
          num_proj_atts := scan.num_proj_atts + 1
          fds := setFd scan.fds i (fopen_r fs i) }
      have hstep : beginscan_loop fs pc (todo + 1) i scan
          = beginscan_loop fs pc todo (i + 1)
            { scan with
              proj_atts := scan.proj_atts ++ [i]
              num_proj_atts := scan.num_proj_atts + 1
              fds := setFd scan.fds i (fopen_r fs i) } := by
        simp [beginscan_loop, hs]
      rw [hstep]
      refine ⟨h1, ?_, ?_, ?_⟩
      · rw [h2]; simp [List.range'_succ, List.filter_cons, hs]
      · rw [h3]; simp [List.range'_succ, List.filter_cons, hs]; omega
      · intro a
        rw [h4 a]
        by_cases hai : a = i
        · subst hai
          have hno : ¬ (a + 1 ≤ a ∧ a < a + 1 + todo ∧ selects pc a = true) := by omega
          have hyes : a ≤ a ∧ a < a + (todo + 1) ∧ selects pc a = true := ⟨le_refl _, by omega, hs⟩
          rw [if_neg hno, if_pos hyes]
          simp [setFd]
        · by_cases hc : i + 1 ≤ a ∧ a < i + 1 + todo ∧ selects pc a = true
          · have hc2 : i ≤ a ∧ a < i + (todo + 1) ∧ selects pc a = true :=
              ⟨by omega, by omega, hc.2.2⟩
            rw [if_pos hc, if_pos hc2]
          · have hc2 : ¬ (i ≤ a ∧ a < i + (todo + 1) ∧ selects pc a = true) := by
              intro h
              exact hc ⟨by omega, by omega, h.2.2⟩
            rw [if_neg hc, if_neg hc2]
            simp [setFd, hai]
    · obtain ⟨h1, h2, h3, h4⟩ := ih (i + 1) scan
      have hstep : beginscan_loop fs pc (todo + 1) i scan
          = beginscan_loop fs pc todo (i + 1) scan := by
        simp [beginscan_loop, hs]
      rw [hstep]
      refine ⟨h1, ?_, ?_, ?_⟩
      · rw [h2]; simp [List.range'_succ, List.filter_cons, hs]
      · rw [h3]; simp [List.range'_succ, List.filter_cons, hs]
      · intro a
        rw [h4 a]
        by_cases hai : a = i
        · subst hai
          have hno : ¬ (a + 1 ≤ a ∧ a < a + 1 + todo ∧ selects pc a = true) := by omega
          have hno2 : ¬ (a ≤ a ∧ a < a + (todo + 1) ∧ selects pc a = true) := fun h => hs h.2.2
          rw [if_neg hno, if_neg hno2]
        · by_cases hc : i + 1 ≤ a ∧ a < i + 1 + todo ∧ selects pc a = true
          · have hc2 : i ≤ a ∧ a < i + (todo + 1) ∧ selects pc a = true :=
              ⟨by omega, by omega, hc.2.2⟩
            rw [if_pos hc, if_pos hc2]
          · have hc2 : ¬ (i ≤ a ∧ a < i + (todo + 1) ∧ selects pc a = true) := by
              intro h
              exact hc ⟨by omega, by omega, h.2.2⟩
            rw [if_neg hc, if_neg hc2]

/-- What `zedstoream_beginscan_with_column_projection` builds: the selected
attribute numbers in ascending order and one stream for each of them. -/
theorem beginscan_spec (relation : RelationData) (fs : Files) (pc : Option (Nat → Bool)) :
    (zedstoream_beginscan_with_column_projection relation fs pc).rs_rd = relation ∧
    (zedstoream_beginscan_with_column_projection relation fs pc).proj_atts
      = (List.range relation.natts).filter (selects pc) ∧
    (zedstoream_beginscan_with_column_projection relation fs pc).num_proj_atts
      = ((List.range relation.natts).filter (selects pc)).length ∧
    ∀ a, (zedstoream_beginscan_with_column_projection relation fs pc).fds a =
      if a < relation.natts ∧ selects pc a = true then fopen_r fs a else none := by
  obtain ⟨h1, h2, h3, h4⟩ := beginscan_loop_spec fs pc relation.natts 0
    { rs_rd := relation, proj_atts := [], fds := fun _ => none, num_proj_atts := 0 }
  unfold zedstoream_beginscan_with_column_projection
  refine ⟨h1, ?_, ?_, ?_⟩
  · rw [h2]; simp [List.range_eq_range']
  · rw [h3]; simp [List.range_eq_range']
  · intro a
    rw [h4 a]
    simp

/-! ## Scan engine: frame of a call -/

theorem mem_of_getElem?_eq_some {α : Type} (l : List α) (i : Nat) (x : α)
    (h : l[i]? = some x) : x ∈ l := by
  rw [List.getElem?_eq_some] at h
  obtain ⟨hi, hx⟩ := h
  rw [← hx]
  exact List.getElem_mem hi

/-- The attribute loop leaves alone the projection list, the relation, the
descriptor of the slot and every handle of an attribute that is not in the
projection list. -/
theorem getnextslot_loop_frame :
    ∀ (todo i : Nat) (scan : ZedStoreDescData) (slot : TupleTableSlot),
      (getnextslot_loop todo i scan slot).scan.proj_atts = scan.proj_atts ∧
      (getnextslot_loop todo i scan slot).scan.num_proj_atts = scan.num_proj_atts ∧
      (getnextslot_loop todo i scan slot).scan.rs_rd = scan.rs_rd ∧
      (getnextslot_loop todo i scan slot).slot.tts_tupleDescriptor = slot.tts_tupleDescriptor ∧
      ∀ a, a ∉ scan.proj_atts → (getnextslot_loop todo i scan slot).scan.fds a = scan.fds a := by
  intro todo
  induction todo with
  | zero => intro i scan slot; simp [getnextslot_loop]
  | succ todo ih =>
    intro i scan slot
    unfold getnextslot_loop
    split
    · rename_i natt attr h1 h2
      split
      · simp
      · rename_i f hf
        have hmem : natt ∈ scan.proj_atts := mem_of_getElem?_eq_some _ _ _ h1
        have hframe : ∀ a, a ∉ scan.proj_atts → ∀ g, setFd scan.fds natt g a = scan.fds a := by
          intro a ha g
          have hne : a ≠ natt := fun h => ha (h ▸ hmem)
          simp [setFd, hne]
        simp only []
        split_ifs with he1 he2
        · exact ⟨rfl, rfl, rfl, rfl, fun a ha => hframe a ha _⟩
        · exact ⟨rfl, rfl, rfl, rfl, fun a ha => hframe a ha _⟩
        · obtain ⟨g1, g2, g3, g4, g5⟩ := ih (i + 1)
            { scan with fds := setFd scan.fds natt (some (fread (size_t_of attr.attlen) f).2) }
            { slot with
              tts_values := storeBytes slot.tts_values (8 * natt) (fread (size_t_of attr.attlen) f).1
              tts_isnull := fun j => if j = natt then false else slot.tts_isnull j }
          refine ⟨g1, g2, g3, g4, ?_⟩
          intro a ha
          rw [g5 a ha]
          exact hframe a ha _
    · simp

/-- A call of `zedstoream_getnextslot` leaves alone the projection list, the
descriptor of the slot and the handles outside the projection list. -/
theorem getnextslot_frame (scan : ZedStoreDescData) (slot : TupleTableSlot) :
    (zedstoream_getnextslot scan slot).scan.proj_atts = scan.proj_atts ∧
    (zedstoream_getnextslot scan slot).scan.num_proj_atts = scan.num_proj_atts ∧
    (zedstoream_getnextslot scan slot).scan.rs_rd = scan.rs_rd ∧
    (zedstoream_getnextslot scan slot).slot.tts_tupleDescriptor = slot.tts_tupleDescriptor ∧
    ∀ a, a ∉ scan.proj_atts → (zedstoream_getnextslot scan slot).scan.fds a = scan.fds a := by
  obtain ⟨h1, h2, h3, h4, h5⟩ := getnextslot_loop_frame scan.num_proj_atts 0 scan
    { slot with tts_nvalid := 0, tts_empty := true }
  unfold zedstoream_getnextslot
  simp only []
  split <;> exact ⟨h1, h2, h3, h4, h5⟩

/-- Any number of calls leaves alone the projection list, the descriptor of the
slot and the handles outside the projection list. -/
theorem scan_calls_frame :
    ∀ (k : Nat) (scan : ZedStoreDescData) (slot : TupleTableSlot),
      (scan_calls k scan slot).scan.proj_atts = scan.proj_atts ∧
      (scan_calls k scan slot).slot.tts_tupleDescriptor = slot.tts_tupleDescriptor ∧
      ∀ a, a ∉ scan.proj_atts → (scan_calls k scan slot).scan.fds a = scan.fds a := by
  intro k
  induction k with
  | zero => intro scan slot; simp [scan_calls]
  | succ k ih =>
    intro scan slot
    obtain ⟨h1, _, _, h4, h5⟩ := getnextslot_frame scan slot
    unfold scan_calls
    simp only []
    split
    · obtain ⟨g1, g2, g3⟩ := ih (zedstoream_getnextslot scan slot).scan
        (zedstoream_getnextslot scan slot).slot
      refine ⟨g1.trans h1, g2.trans h4, ?_⟩
      intro a ha
      rw [g3 a (by rw [h1]; exact ha)]
      exact h5 a ha
    · exact ⟨h1, h4, h5⟩

theorem fread_err (n : Nat) (f : FILE) :
    (fread n f).2.err = (f.err || decide (SSIZE_MAX < n)) := by
  unfold fread
  by_cases hb : SSIZE_MAX < n
  · simp [hb]
  · rw [if_neg hb]
    split <;> simp [hb]

theorem fread_eof (n : Nat) (f : FILE) (hn : n ≤ SSIZE_MAX) :
    (fread n f).2.eof = (f.eof || decide (f.buf.length < n)) := by
  unfold fread
  have hb : ¬ SSIZE_MAX < n := by omega
  rw [if_neg hb]
  split
  · rename_i h; simp [h]
  · rename_i h; simp [h]

theorem fread_buf_length_le (n : Nat) (f : FILE) : (fread n f).2.buf.length ≤ f.buf.length := by
  unfold fread
  split
  · simp
  · split
    · simp
    · simp

theorem handleOk_some (h : Option FILE) (hok : handleOk h = true) :
    ∃ f, h = some f ∧ f.err = false := by
  cases h with
  | none => simp [handleOk] at hok
  | some f => exact ⟨f, rfl, by simpa [handleOk] using hok⟩

theorem fixedWidth_size (attr : FormData_pg_attribute) (h : FixedWidth attr) :
    size_t_of attr.attlen = attr.attlen.toNat ∧ size_t_of attr.attlen ≤ SSIZE_MAX := by
  obtain ⟨h0, h1⟩ := h
  have e := size_t_of_nonneg attr.attlen h0 (by omega)
  rw [e]
  refine ⟨rfl, ?_⟩
  have : attr.attlen.toNat ≤ 32767 := by omega
  have hs : (32767 : Nat) ≤ SSIZE_MAX := by decide
  omega

theorem mem_take_of_getElem? {α : Type} (l : List α) (n j : Nat) (x : α) (hj : j < n)
    (h : l[j]? = some x) : x ∈ l.take n := by
  have h2 : (l.take n)[j]? = some x := by
    rw [List.getElem?_take_of_lt hj]; exact h
  exact mem_of_getElem?_eq_some _ _ _ h2

/-- On a cursor whose projected handles are open without error and whose
widths are those of fixed-width attributes, the attribute loop raises no
error and leaves the handles open without error; it either returns early with
the slot cleared or completes, and it completes only when no read of the
iterations made ended at end-of-file. -/
theorem getnextslot_loop_eof (N : Nat) :
    ∀ (todo i : Nat) (scan : ZedStoreDescData) (slot : TupleTableSlot),
      i + todo ≤ N →
      i + todo ≤ scan.proj_atts.length →
      i + todo ≤ slot.tts_tupleDescriptor.length →
      (∀ natt ∈ scan.proj_atts, handleOk (scan.fds natt) = true) →
      (∀ attr ∈ slot.tts_tupleDescriptor.take N, FixedWidth attr) →
      (∀ natt ∈ scan.proj_atts,
        handleOk ((getnextslot_loop todo i scan slot).scan.fds natt) = true) ∧
      (((getnextslot_loop todo i scan slot).exit = LoopExit.returned ∧
          (getnextslot_loop todo i scan slot).slot.tts_empty = true) ∨
        ((getnextslot_loop todo i scan slot).exit = LoopExit.completed ∧
          ∀ j, i ≤ j → j < i + todo → hitsEOF scan slot j = false)) := by
  intro todo
  induction todo with
  | zero =>
    intro i scan slot _ _ _ hok _
    refine ⟨by simpa [getnextslot_loop] using hok, ?_⟩
    right
    refine ⟨by simp [getnextslot_loop], ?_⟩
    intro j h1 h2
    omega
  | succ todo ih =>
    intro i scan slot hN hp hd hok hfix
    have hip : i < scan.proj_atts.length := by omega
    have hid : i < slot.tts_tupleDescriptor.length := by omega
    have e1 : scan.proj_atts[i]? = some scan.proj_atts[i] := List.getElem?_eq_getElem hip
    have e2 : slot.tts_tupleDescriptor[i]? = some slot.tts_tupleDescriptor[i] :=
      List.getElem?_eq_getElem hid
    obtain ⟨f, hf, hferr⟩ := handleOk_some _ (hok _ (List.getElem_mem hip))
    generalize scan.proj_atts[i] = natt at e1 hf
    generalize slot.tts_tupleDescriptor[i] = attr at e2
    have hsize : size_t_of attr.attlen ≤ SSIZE_MAX :=
      (fixedWidth_size attr
        (hfix attr (mem_take_of_getElem? _ N i attr (by omega) e2))).2
    have herr : (fread (size_t_of attr.attlen) f).2.err = false := by
      rw [fread_err, hferr]
      simp
      omega
    have hok' : ∀ n ∈ scan.proj_atts,
        handleOk (setFd scan.fds natt (some (fread (size_t_of attr.attlen) f).2) n) = true := by
      intro n hn
      by_cases hnn : n = natt
      · simp [setFd, hnn, handleOk, herr]
      · simpa [setFd, hnn] using hok n hn
    by_cases heof : (fread (size_t_of attr.attlen) f).2.eof = true
    · have hstop : getnextslot_loop (todo + 1) i scan slot
          = ⟨{ scan with
                fds := setFd scan.fds natt (some (fread (size_t_of attr.attlen) f).2) },
              ExecClearTuple { slot with
                tts_values := storeBytes slot.tts_values (8 * natt)
                  (fread (size_t_of attr.attlen) f).1 },
              LoopExit.returned⟩ := by
        simp [getnextslot_loop, e1, e2, hf, herr, heof]
      rw [hstop]
      exact ⟨hok', Or.inl ⟨rfl, rfl⟩⟩
    · have heof' : (fread (size_t_of attr.attlen) f).2.eof = false := by simpa using heof
      have hstep : getnextslot_loop (todo + 1) i scan slot
          = getnextslot_loop todo (i + 1)
              { scan with
                fds := setFd scan.fds natt (some (fread (size_t_of attr.attlen) f).2) }
              { slot with
                tts_values := storeBytes slot.tts_values (8 * natt)
                  (fread (size_t_of attr.attlen) f).1
                tts_isnull := fun j => if j = natt then false else slot.tts_isnull j } := by
        simp [getnextslot_loop, e1, e2, hf, herr, heof']
      rw [hstep]
      obtain ⟨hk, hcase⟩ := ih (i + 1)
          { scan with
            fds := setFd scan.fds natt (some (fread (size_t_of attr.attlen) f).2) }
          { slot with
            tts_values := storeBytes slot.tts_values (8 * natt)
              (fread (size_t_of attr.attlen) f).1
            tts_isnull := fun j => if j = natt then false else slot.tts_isnull j }
          (by omega)
          (by show i + 1 + todo ≤ scan.proj_atts.length; omega)
          (by show i + 1 + todo ≤ slot.tts_tupleDescriptor.length; omega) hok' hfix
      refine ⟨hk, ?_⟩
      rcases hcase with h | h
      · left; exact h
      · right
        refine ⟨h.1, ?_⟩
        intro j hj1 hj2
        rw [fread_eof _ _ hsize] at heof'
        by_cases hji : j = i
        · subst hji
          simp only [hitsEOF, e1, e2, hf]
          exact heof'
        · have hj := h.2 j (by omega) (by omega)
          -- a read that ends at end-of-file before the call of iteration `i`
          -- still does so after it
          cases hpj : scan.proj_atts[j]? with
          | none => simp [hitsEOF, hpj]
          | some nj =>
            cases hdj : slot.tts_tupleDescriptor[j]? with
            | none => simp [hitsEOF, hpj, hdj]
            | some aj =>
              simp only [hitsEOF, hpj, hdj] at hj ⊢
              by_cases hnj : nj = natt
              · subst hnj
                simp only [setFd, if_true, hf] at hj ⊢
                have hlen := fread_buf_length_le (size_t_of attr.attlen) f
                have hfe : (fread (size_t_of attr.attlen) f).2.eof = false := by
                  rw [fread_eof _ _ hsize]; exact heof'
                rw [hfe] at hj
                simp only [Bool.or_eq_false_iff, decide_eq_false_iff_not, not_lt,
                  Bool.false_or] at heof' hj ⊢
                exact ⟨heof'.1, by omega⟩
              · simpa [setFd, hnj] using hj

/-- A call of `zedstoream_getnextslot` on a well-formed cursor in which the read
of some iteration ends at end-of-file raises no error and clears the slot. -/
theorem getnextslot_of_hitsEOF (scan : ZedStoreDescData)
    (slot : TupleTableSlot) (hwf : WellFormedScan scan slot)
    (heof : ∃ i, i < scan.num_proj_atts ∧ hitsEOF scan slot i = true) :
    (zedstoream_getnextslot scan slot).failure = none ∧
    (zedstoream_getnextslot scan slot).slot.tts_empty = true := by
  obtain ⟨h1, h2, h3, h4⟩ := hwf
  obtain ⟨i, hi, hhit⟩ := heof
  obtain ⟨_, hloop⟩ := getnextslot_loop_eof scan.num_proj_atts scan.num_proj_atts 0 scan
    { slot with tts_nvalid := 0, tts_empty := true }
    (by omega) (by simpa using h1) (by simpa using h2) h3 h4
  rcases hloop with h | h
  · unfold zedstoream_getnextslot
    simp only [h.1]
    exact ⟨trivial, h.2⟩
  · exfalso
    have hno := h.2 i (Nat.zero_le _) (by simpa using hi)
    have hsame : hitsEOF scan { slot with tts_nvalid := 0, tts_empty := true } i
        = hitsEOF scan slot i := rfl
    rw [hsame, hhit] at hno
    exact Bool.noConfusion hno

theorem fread_full (R X : List Nat) (n : Nat) (hn : R.length = n) (h8 : n ≤ 8) :
    fread n ⟨R ++ X, false, false⟩ = (R, ⟨X, false, false⟩) := by
  subst hn
  unfold fread
  have hs : ¬ SSIZE_MAX < R.length := by
    have : (8 : Nat) ≤ SSIZE_MAX := by decide
    omega
  rw [if_neg hs]
  simp

theorem storeBytes_inside (values : Nat → Nat) (off : Nat) (bytes : List Nat) (j : Nat)
    (hj : j < bytes.length) : storeBytes values off bytes (off + j) = bytes.getD j 0 := by
  unfold storeBytes
  have h : off ≤ off + j ∧ off + j < off + bytes.length := ⟨by omega, by omega⟩
  rw [if_pos h]
  simp

theorem storeBytes_outside (values : Nat → Nat) (off : Nat) (bytes : List Nat) (p : Nat)
    (hp : p < off ∨ off + bytes.length ≤ p) : storeBytes values off bytes p = values p := by
  unfold storeBytes
  have h : ¬ (off ≤ p ∧ p < off + bytes.length) := by omega
  rw [if_neg h]

/-- The attribute loop of a full scan when every stream starts with a whole
record `R a` of the attribute's width (at most 8 bytes): the loop completes,
each stream is advanced past its record and the record is stored in the
attribute's entry of `tts_values`. -/
theorem getnextslot_loop_record (attrs : List FormData_pg_attribute) (R X : Nat → List Nat)
    (hw : ∀ a, a < attrs.length →
      (R a).length = size_t_of (attrAt attrs a).attlen ∧ (R a).length ≤ 8) :
    ∀ (todo i : Nat) (scan : ZedStoreDescData) (slot : TupleTableSlot),
      i + todo = attrs.length →
      scan.proj_atts = List.range attrs.length →
      slot.tts_tupleDescriptor = attrs →
      (∀ a, i ≤ a → a < attrs.length → scan.fds a = some ⟨R a ++ X a, false, false⟩) →
      (getnextslot_loop todo i scan slot).exit = LoopExit.completed ∧
      (getnextslot_loop todo i scan slot).scan.proj_atts = scan.proj_atts ∧
      (getnextslot_loop todo i scan slot).scan.num_proj_atts = scan.num_proj_atts ∧
      (getnextslot_loop todo i scan slot).slot.tts_tupleDescriptor = attrs ∧
      (∀ a, i ≤ a → a < attrs.length →
        (getnextslot_loop todo i scan slot).scan.fds a = some ⟨X a, false, false⟩) ∧
      (∀ a, i ≤ a → a < attrs.length → ∀ j, j < (R a).length →
        (getnextslot_loop todo i scan slot).slot.tts_values (8 * a + j) = (R a).getD j 0) ∧
      (∀ p, p < 8 * i →
        (getnextslot_loop todo i scan slot).slot.tts_values p = slot.tts_values p) ∧
      (∀ a, a < i → (getnextslot_loop todo i scan slot).scan.fds a = scan.fds a) := by
  intro todo
  induction todo with
  | zero =>
    intro i scan slot hi hp hd hfd
    refine ⟨by simp [getnextslot_loop], by simp [getnextslot_loop], by simp [getnextslot_loop],
      by simpa [getnextslot_loop] using hd, ?_, ?_, by simp [getnextslot_loop],
      by simp [getnextslot_loop]⟩
    · intro a h1 h2; omega
    · intro a h1 h2; omega
  | succ todo ih =>
    intro i scan slot hi hp hd hfd
    have hil : i < attrs.length := by omega
    have e1 : scan.proj_atts[i]? = some i := by
      rw [hp]; exact List.getElem?_range hil
    have e2 : slot.tts_tupleDescriptor[i]? = some (attrAt attrs i) := by
      rw [hd]; exact attrAt_getElem? attrs i hil
    have e3 := hfd i (le_refl _) hil
    have e4 := fread_full (R i) (X i) (size_t_of (attrAt attrs i).attlen) (hw i hil).1
      (by rw [← (hw i hil).1]; exact (hw i hil).2)
    have hstep : getnextslot_loop (todo + 1) i scan slot
        = getnextslot_loop todo (i + 1)
            { scan with fds := setFd scan.fds i (some ⟨X i, false, false⟩) }
            { slot with
              tts_values := storeBytes slot.tts_values (8 * i) (R i)
              tts_isnull := fun j => if j = i then false else slot.tts_isnull j } := by
      simp [getnextslot_loop, e1, e2, e3, e4]
    rw [hstep]
    obtain ⟨g1, g2, g3, g4, g5, g6, g7, g8⟩ := ih (i + 1)
      { scan with fds := setFd scan.fds i (some ⟨X i, false, false⟩) }
      { slot with
        tts_values := storeBytes slot.tts_values (8 * i) (R i)
        tts_isnull := fun j => if j = i then false else slot.tts_isnull j }
      (by omega) hp hd
      (by
        intro a h1 h2
        have hne : a ≠ i := by omega
        simpa [setFd, hne] using hfd a (by omega) h2)
    refine ⟨g1, g2, g3, g4, ?_, ?_, ?_, ?_⟩
    · intro a h1 h2
      by_cases hai : a = i
      · subst hai
        rw [g8 a (by omega)]
        simp [setFd]
      · exact g5 a (by omega) h2
    · intro a h1 h2 j hj
      by_cases hai : a = i
      · subst hai
        rw [g7 (8 * a + j) (by have := (hw a hil).2; omega)]
        exact storeBytes_inside _ _ _ _ hj
      · exact g6 a (by omega) h2 j hj
    · intro p hp8
      rw [g7 p (by omega)]
      exact storeBytes_outside _ _ _ _ (Or.inl hp8)
    · intro a ha
      rw [g8 a (by omega)]
      have hne : a ≠ i := by omega
      simp [setFd, hne]

theorem attrAt_mem (attrs : List FormData_pg_attribute) (a : Nat) (h : a < attrs.length) :
    attrAt attrs a ∈ attrs := by
  have := attrAt_getElem? attrs a h
  exact mem_of_getElem?_eq_some _ _ _ this

theorem size_t_of_fixedByVal (attr : FormData_pg_attribute) (h : FixedByVal attr) :
    size_t_of attr.attlen = attr.attlen.toNat ∧ 1 ≤ size_t_of attr.attlen ∧
      size_t_of attr.attlen ≤ 8 := by
  obtain ⟨_, h1, h2⟩ := h
  have e := size_t_of_nonneg attr.attlen (by omega) (by omega)
  rw [e]
  refine ⟨rfl, ?_, ?_⟩ <;> omega

theorem fixedWidth_of_fixedByVal (attr : FormData_pg_attribute) (h : FixedByVal attr) :
    FixedWidth attr := by
  obtain ⟨_, h1, h2⟩ := h
  exact ⟨by omega, by omega⟩

theorem writtenSize_of_fixedWidth (attr : FormData_pg_attribute) (h : FixedWidth attr) :
    writtenSize attr = size_t_of attr.attlen := by
  have hs := (fixedWidth_size attr h).2
  unfold writtenSize
  rw [if_neg (by omega)]

theorem recordBytes_byval_getD (mem : Memory) (values : Nat → Nat) (a : Nat)
    (attr : FormData_pg_attribute) (h : FixedByVal attr) (j : Nat)
    (hj : j < size_t_of attr.attlen) :
    (recordBytes mem values a attr).getD j 0 = values (8 * a + j) := by
  have h8 := (size_t_of_fixedByVal attr h).2.2
  have hj8 : j < 8 := by omega
  have hs := (fixedWidth_size attr (fixedWidth_of_fixedByVal attr h)).2
  unfold recordBytes
  rw [if_neg (by omega)]
  simp [h.1, List.getD_eq_getElem?_getD, List.getElem?_map, List.getElem?_range hj, datumAt, hj8]

/-- One call of `zedstoream_getnextslot` of a full scan in front of a row. -/
theorem getnextslot_row (mem : Memory) (attrs : List FormData_pg_attribute)
    (hbv : ∀ attr ∈ attrs, FixedByVal attr) (row : TupleTableSlot)
    (rest : List TupleTableSlot) (scan : ZedStoreDescData) (slot : TupleTableSlot)
    (hcur : FullCursor mem attrs (row :: rest) scan)
    (hdesc : slot.tts_tupleDescriptor = attrs) :
    (zedstoream_getnextslot scan slot).failure = none ∧
    (zedstoream_getnextslot scan slot).slot.tts_empty = false ∧
    (zedstoream_getnextslot scan slot).slot.tts_tupleDescriptor = attrs ∧
    FullCursor mem attrs rest (zedstoream_getnextslot scan slot).scan ∧
    ∀ a, a < attrs.length → ∀ j, j < size_t_of (attrAt attrs a).attlen →
      (zedstoream_getnextslot scan slot).slot.tts_values (8 * a + j)
        = row.tts_values (8 * a + j) := by
  obtain ⟨hp, hn, hfd⟩ := hcur
  have hw : ∀ a, a < attrs.length →
      (recordBytes mem row.tts_values a (attrAt attrs a)).length
          = size_t_of (attrAt attrs a).attlen ∧
        (recordBytes mem row.tts_values a (attrAt attrs a)).length ≤ 8 := by
    intro a ha
    have hb := hbv _ (attrAt_mem attrs a ha)
    rw [recordBytes_length, writtenSize_of_fixedWidth _ (fixedWidth_of_fixedByVal _ hb)]
    exact ⟨rfl, (size_t_of_fixedByVal _ hb).2.2⟩
  obtain ⟨g1, g2, g3, g4, g5, g6, _, _⟩ := getnextslot_loop_record attrs
    (fun a => recordBytes mem row.tts_values a (attrAt attrs a))
    (fun a => columnBytes mem (attrAt attrs a) a rest) hw
    attrs.length 0 scan { slot with tts_nvalid := 0, tts_empty := true }
    (by omega) hp hdesc
    (by intro a _ ha; simpa [columnBytes] using hfd a ha)
  unfold zedstoream_getnextslot
  simp only [hn, g1]
  refine ⟨trivial, trivial, g4, ⟨g2.trans hp, g3.trans hn, ?_⟩, ?_⟩
  · intro a ha
    exact g5 a (Nat.zero_le _) ha
  · intro a ha j hj
    have := g6 a (Nat.zero_le _) ha j (by
      rw [recordBytes_length,
        writtenSize_of_fixedWidth _ (fixedWidth_of_fixedByVal _ (hbv _ (attrAt_mem attrs a ha)))]
      exact hj)
    rw [recordBytes_byval_getD mem _ a _ (hbv _ (attrAt_mem attrs a ha)) j hj] at this
    exact this

/-- One call of `zedstoream_getnextslot` of a full scan when no row is left, on
a table with at least one attribute. -/
theorem getnextslot_exhausted (mem : Memory) (attrs : List FormData_pg_attribute)
    (hne : attrs ≠ []) (hbv : ∀ attr ∈ attrs, FixedByVal attr)
    (scan : ZedStoreDescData) (slot : TupleTableSlot)
    (hcur : FullCursor mem attrs [] scan) (hdesc : slot.tts_tupleDescriptor = attrs) :
    (zedstoream_getnextslot scan slot).failure = none ∧
    (zedstoream_getnextslot scan slot).slot.tts_empty = true := by
  obtain ⟨hp, hn, hfd⟩ := hcur
  have hpos : 0 < attrs.length := List.length_pos.mpr hne
  apply getnextslot_of_hitsEOF
  · refine ⟨by rw [hn, hp]; simp, by rw [hn, hdesc], ?_, ?_⟩
    · intro natt hmem
      rw [hp, List.mem_range] at hmem
      rw [hfd natt hmem]
      rfl
    · intro attr hmem
      rw [hdesc] at hmem
      exact fixedWidth_of_fixedByVal attr (hbv attr (List.mem_of_mem_take hmem))
  · refine ⟨0, by omega, ?_⟩
    have e1 : scan.proj_atts[0]? = some 0 := by rw [hp]; exact List.getElem?_range hpos
    have e2 : slot.tts_tupleDescriptor[0]? = some (attrAt attrs 0) := by
      rw [hdesc]; exact attrAt_getElem? attrs 0 hpos
    have h1 := (size_t_of_fixedByVal _ (hbv _ (attrAt_mem attrs 0 hpos))).2.1
    simp only [hitsEOF, e1, e2, hfd 0 hpos, columnBytes]
    simpa using h1

theorem scan_calls_succ_of_ok (k : Nat) (scan : ZedStoreDescData) (slot : TupleTableSlot)
    (h : (zedstoream_getnextslot scan slot).failure = none) :
    scan_calls (k + 1) scan slot
      = scan_calls k (zedstoream_getnextslot scan slot).scan
          (zedstoream_getnextslot scan slot).slot := by
  simp [scan_calls, h]

/-- A full scan in front of `rows`: call `k+1` returns row `k`, and the call
after the last row returns the empty slot. -/
theorem scan_calls_rows (mem : Memory) (attrs : List FormData_pg_attribute)
    (hne : attrs ≠ []) (hbv : ∀ attr ∈ attrs, FixedByVal attr) :
    ∀ (rows : List TupleTableSlot) (scan : ZedStoreDescData) (slot : TupleTableSlot),
      FullCursor mem attrs rows scan → slot.tts_tupleDescriptor = attrs →
      (∀ k row, rows[k]? = some row →
        (scan_calls (k + 1) scan slot).failure = none ∧
        (scan_calls (k + 1) scan slot).slot.tts_empty = false ∧
        ∀ a, a < attrs.length → ∀ j, j < size_t_of (attrAt attrs a).attlen →
          (scan_calls (k + 1) scan slot).slot.tts_values (8 * a + j)
            = row.tts_values (8 * a + j)) ∧
      (scan_calls (rows.length + 1) scan slot).failure = none ∧
      (scan_calls (rows.length + 1) scan slot).slot.tts_empty = true := by
  intro rows
  induction rows with
  | nil =>
    intro scan slot hcur hdesc
    obtain ⟨h1, h2⟩ := getnextslot_exhausted mem attrs hne hbv scan slot hcur hdesc
    refine ⟨?_, ?_⟩
    · intro k row hk
      simp at hk
    · rw [List.length_nil, scan_calls_succ_of_ok 0 scan slot h1]
      exact ⟨rfl, h2⟩
  | cons r rest ih =>
    intro scan slot hcur hdesc
    obtain ⟨h1, h2, h3, h4, h5⟩ := getnextslot_row mem attrs hbv r rest scan slot hcur hdesc
    obtain ⟨ih1, ih2⟩ := ih (zedstoream_getnextslot scan slot).scan
      (zedstoream_getnextslot scan slot).slot h4 h3
    refine ⟨?_, ?_⟩
    · intro k row hk
      cases k with
      | zero =>
        have hr : r = row := by simpa using hk
        subst hr
        rw [scan_calls_succ_of_ok 0 scan slot h1]
        exact ⟨rfl, h2, h5⟩
      | succ k =>
        rw [scan_calls_succ_of_ok (k + 1) scan slot h1]
        exact ih1 k row (by simpa using hk)
    · rw [List.length_cons, scan_calls_succ_of_ok (rest.length + 1) scan slot h1]
      exact ih2

/-- The cursor of `zedstoream_beginscan` opened after the inserts of rows without
nulls into column files that hold no byte stands in front of these rows,
provided the column files exist: they did before, or a row was inserted. -/
theorem beginscan_after_inserts (mem : Memory) (relation : RelationData)
    (rows : List TupleTableSlot) (fs0 : Files)
    (hnn : ∀ row ∈ rows, NoNulls relation.natts row)
    (hempty : ∀ a, a < relation.natts → fs0 a = [])
    (hopen : rows ≠ [] ∨ ∀ a, a < relation.natts → fs0.present a = true) :
    FullCursor mem relation.rd_att rows
      (zedstoream_beginscan relation (insert_rows mem relation rows fs0).files) := by
  obtain ⟨_, hfiles⟩ := insert_rows_nonnull mem relation rows fs0 hnn
  obtain ⟨_, h2, h3, h4⟩ := beginscan_spec relation
    (insert_rows mem relation rows fs0).files none
  have hsel : (List.range relation.natts).filter (selects none) = List.range relation.natts := by
    simp [selects]
  unfold zedstoream_beginscan
  refine ⟨?_, ?_, ?_⟩
  · rw [h2, hsel]; rfl
  · rw [h3, hsel]; simp [RelationData.natts]
  · intro a ha
    have ha' : a < relation.natts := ha
    have hpres : (insert_rows mem relation rows fs0).files.present a = true := by
      rw [(hfiles a).2]
      rcases hopen with h | h
      · have hne : rows.isEmpty = false := by
          cases rows with
          | nil => exact absurd rfl h
          | cons r rs => rfl
        simp [ha', hne]
      · simp [h a ha']
    rw [h4 a]
    rw [if_pos ⟨ha', by simp [selects]⟩, fopen_r_of_present _ a hpres, (hfiles a).1,
      if_pos ha', hempty a ha']
    simp

theorem size_t_of_neg_one : size_t_of (-1) = 2 ^ 64 - 1 := by decide

/-- After inserts of rows without nulls into column files that hold no byte,
every column file holds as many records as rows were inserted, each of the
size the insert writes for that attribute. -/
theorem insert_rows_record_count (mem : Memory) (relation : RelationData)
    (rows : List TupleTableSlot) (fs0 : Files)
    (hnn : ∀ row ∈ rows, NoNulls relation.natts row)
    (a : Nat) (ha : a < relation.natts) (hempty : fs0 a = []) :
    (insert_rows mem relation rows fs0).failure = none ∧
    ((insert_rows mem relation rows fs0).files a).length
      = rows.length * writtenSize (attrAt relation.rd_att a) := by
  obtain ⟨hf, hfiles⟩ := insert_rows_nonnull mem relation rows fs0 hnn
  refine ⟨hf, ?_⟩
  rw [(hfiles a).1]
  simp [ha, hempty, columnBytes_length]

theorem toBlockNumber_of_nonneg (x : Int) (h0 : 0 ≤ x) (h1 : x < 2 ^ 32) :
    toBlockNumber x = x.toNat := by
  unfold toBlockNumber
  rw [Int.emod_eq_of_lt h0 h1]

/-- The page count the estimator reports: the actual count, raised to 10 for a
small table with no recorded pages and no sub-relations. -/
theorem estimate_pages (layout : PageLayout) (nblocks : Nat) (rd_rel : FormData_pg_class)
    (get_rel_data_width : List Int → Int) (attr_widths : List Int) :
    (zedstoream_estimate_rel_size layout nblocks rd_rel get_rel_data_width attr_widths).pages
      = if nblocks < 10 ∧ toBlockNumber rd_rel.relpages = 0 ∧ rd_rel.relhassubclass = false
        then 10 else nblocks := by
  unfold zedstoream_estimate_rel_size
  simp only []
  generalize (if nblocks < 10 ∧ toBlockNumber rd_rel.relpages = 0 ∧ rd_rel.relhassubclass = false
    then 10 else nblocks) = c
  split <;> rfl

/-- The all-visible fraction the estimator reports, in terms of the page count
it reports. -/
theorem estimate_allvisfrac (layout : PageLayout) (nblocks : Nat) (rd_rel : FormData_pg_class)
    (get_rel_data_width : List Int → Int) (attr_widths : List Int) :
    (zedstoream_estimate_rel_size layout nblocks rd_rel get_rel_data_width attr_widths).allvisfrac
      = if toBlockNumber rd_rel.relallvisible = 0 ∨
          (zedstoream_estimate_rel_size layout nblocks rd_rel get_rel_data_width
            attr_widths).pages = 0 then 0
        else if (zedstoream_estimate_rel_size layout nblocks rd_rel get_rel_data_width
            attr_widths).pages ≤ toBlockNumber rd_rel.relallvisible then 1
        else (toBlockNumber rd_rel.relallvisible : ℚ)
          / ((zedstoream_estimate_rel_size layout nblocks rd_rel get_rel_data_width
              attr_widths).pages : ℚ) := by
  rw [estimate_pages]
  unfold zedstoream_estimate_rel_size
  simp only []
  generalize (if nblocks < 10 ∧ toBlockNumber rd_rel.relpages = 0 ∧ rd_rel.relhassubclass = false
    then 10 else nblocks) = c
  split
  · rename_i h0
    simp [h0]
  · rename_i h0
    simp only [Nat.le_zero_eq, ge_iff_le, Nat.cast_le]

/-- The value of the fraction formula lies between 0 and 1. -/
theorem fraction_bounds (count pages : Nat) :
    0 ≤ (if count = 0 ∨ pages = 0 then (0 : ℚ)
          else if pages ≤ count then 1 else (count : ℚ) / (pages : ℚ)) ∧
    (if count = 0 ∨ pages = 0 then (0 : ℚ)
          else if pages ≤ count then 1 else (count : ℚ) / (pages : ℚ)) ≤ 1 := by
  split
  · exact ⟨le_refl _, zero_le_one⟩
  · rename_i h
    split
    · exact ⟨zero_le_one, le_refl _⟩
    · rename_i hlt
      have hp : (0 : ℚ) < (pages : ℚ) := by
        have : 0 < pages := by omega
        exact_mod_cast this
      have hc : (count : ℚ) ≤ (pages : ℚ) := by
        have : count ≤ pages := by omega
        exact_mod_cast this
      exact ⟨div_nonneg (Nat.cast_nonneg _) (le_of_lt hp), (div_le_one hp).mpr hc⟩

/-- With 5 actual pages and 2 recorded all-visible pages the fraction is 2/5. -/
theorem estimate_allvisfrac_two_fifths :
    (zedstoream_estimate_rel_size defaultLayout 5 analyzedClass sumWidths [4, 4]).allvisfrac
      = 2 / 5 := by
  rw [estimate_allvisfrac, estimate_pages]
  have h1 : toBlockNumber analyzedClass.relallvisible = 2 := by decide
  have h2 : toBlockNumber analyzedClass.relpages = 3 := by decide
  simp [h1, h2]

/-! ## Scan engine: cursors that stay within defined behaviour -/

/-- A scan of a table with a variable-width attribute: after the insert of one
row into the `(int4, text)` table, the first call of a full scan reads the
record of attribute 0 and then asks `fread` for `size_t(-1)` bytes of attribute
1; the read fails and the call raises the error "file read failed.". -/
theorem variable_width_read_raises_error :
    (scan_calls 1 (zedstoream_beginscan relIT filesIT) (blankSlot relIT.rd_att)).failure
      = some Failure.file_read_failed := by
  decide

/-! ## The claims -/

/-- C1 (failing input). A one-column table whose attribute is 6 bytes wide and
passed by reference; the row holds a pointer to address 1000 where the bytes
17, 34, 51, 68, 85, 102 lie.  The insert writes these six bytes to the column
file; the full scan returns a non-empty slot whose `Datum` is made of these
bytes themselves, so as a pointer it is not 1000 and does not refer to the
inserted bytes. -/
theorem roundtrip_fails_for_pass_by_reference :
    (∀ attr ∈ relMac.rd_att, 0 ≤ attr.attlen) ∧ NoNulls relMac.natts macRow ∧
    macInserted.failure = none ∧
    macInserted.files 0 = [17, 34, 51, 68, 85, 102] ∧
    DatumGetPointer (datumAt macRow.tts_values 0) = 1000 ∧
    (List.range 6).map (fun j => macMemory (1000 + j)) = [17, 34, 51, 68, 85, 102] ∧
    macScanned.failure = none ∧ macScanned.slot.tts_empty = false ∧
    DatumGetPointer (datumAt macScanned.slot.tts_values 0) = 112516402455057 ∧
    ¬ (∀ j, j < 6 →
        macMemory (DatumGetPointer (datumAt macScanned.slot.tts_values 0) + j)
          = macMemory (DatumGetPointer (datumAt macRow.tts_values 0) + j)) := by
  decide

/-- C2 (failing input). The `(int4, int4)` table holds the rows `(1,10)`,
`(2,20)`, `(3,30)`; the insert of `(4, NULL)` raises the error for nulls, but
only after the record of attribute 0 was appended: its column file has grown
by the four bytes of `4`, the file of attribute 1 has not. -/
theorem null_row_leaves_unmatched_record :
    (zedstoream_insert zeroMemory relII rowNullSecond files123).failure
      = some Failure.nulls_unsupported ∧
    (zedstoream_insert zeroMemory relII rowNullSecond files123).files 0
      = files123 0 ++ [4, 0, 0, 0] ∧
    (zedstoream_insert zeroMemory relII rowNullSecond files123).files 0 ≠ files123 0 ∧
    (zedstoream_insert zeroMemory relII rowNullSecond files123).files 1 = files123 1 ∧
    (files123 0).length = 12 ∧ (files123 1).length = 12 := by
  decide

/-- C3 (failing input). The `(int4, text)` table just created and the row
`(1, pointer 1000)`, no entry null: the insert raises no error (the message for
`attlen < 0` is logged at level `LOG` only).  The row is not rejected before
anything is written: the column file of attribute 0 is created and holds the
record `1`, the column file of attribute 1 is created and holds nothing, the
`fwrite` of `size_t(-1)` bytes having written nothing. -/
theorem variable_width_insert_is_not_rejected :
    (∃ attr ∈ relIT.rd_att, attr.attlen < 0) ∧ NoNulls relIT.natts rowIT ∧
    (zedstoream_insert macMemory relIT rowIT noFiles).failure = none ∧
    (zedstoream_insert macMemory relIT rowIT noFiles).files.present 0 = true ∧
    (zedstoream_insert macMemory relIT rowIT noFiles).files 0 = [1, 0, 0, 0] ∧
    (zedstoream_insert macMemory relIT rowIT noFiles).files 0 ≠ noFiles 0 ∧
    (zedstoream_insert macMemory relIT rowIT noFiles).files.present 1 = true ∧
    (zedstoream_insert macMemory relIT rowIT noFiles).files 1 = [] := by
  decide

/-- C4 (failing input). On the `(int4, text)` table just created two inserts
return without error; afterwards the file of attribute 0 holds two records
(`2 * 4 = 8` bytes) while the file of the variable-width attribute 1 holds no
byte at all, so the column files do not hold the same number of records and
the length of file 1 is not `2 * attlen`. -/
theorem variable_width_breaks_record_count :
    (∀ row ∈ rowsIT, NoNulls relIT.natts row) ∧
    (insert_rows macMemory relIT rowsIT noFiles).failure = none ∧
    ((insert_rows macMemory relIT rowsIT noFiles).files 0).length = 8 ∧
    (((insert_rows macMemory relIT rowsIT noFiles).files 0).length : Int)
      = (rowsIT.length : Int) * (attrAt relIT.rd_att 0).attlen ∧
    ((insert_rows macMemory relIT rowsIT noFiles).files 1).length = 0 ∧
    (((insert_rows macMemory relIT rowsIT noFiles).files 1).length : Int)
      ≠ (rowsIT.length : Int) * (attrAt relIT.rd_att 1).attlen := by
  decide

/-- C5 (as amended). Insertion-order scan: for every table with at least one
attribute whose attributes are all fixed-width pass-by-value, and every list
of rows without nulls inserted in order into column files that hold no byte
(not yet created, or empty), with at least one row unless the column files
exist already, all inserts succeed, call `k+1` of a full scan returns a
non-empty slot that agrees with row `k` on the declared-width bytes of every
attribute, and the call after the last row returns the slot marked empty. -/
theorem full_scan_returns_rows_in_insertion_order (mem : Memory) (relation : RelationData)
    (rows : List TupleTableSlot) (fs0 : Files) (slot : TupleTableSlot)
    (hatt : 0 < relation.natts)
    (hbv : ∀ attr ∈ relation.rd_att, FixedByVal attr)
    (hnn : ∀ row ∈ rows, NoNulls relation.natts row)
    (hempty : ∀ a, a < relation.natts → fs0 a = [])
    (hopen : rows ≠ [] ∨ ∀ a, a < relation.natts → fs0.present a = true)
    (hdesc : slot.tts_tupleDescriptor = relation.rd_att) :
    (insert_rows mem relation rows fs0).failure = none ∧
    (∀ k row, rows[k]? = some row →
      (insert_then_scan mem relation rows fs0 slot (k + 1)).failure = none ∧
      (insert_then_scan mem relation rows fs0 slot (k + 1)).slot.tts_empty = false ∧
      ∀ a, a < relation.natts → ∀ j : Nat, (j : Int) < (attrAt relation.rd_att a).attlen →
        (insert_then_scan mem relation rows fs0 slot (k + 1)).slot.tts_values (8 * a + j)
          = row.tts_values (8 * a + j)) ∧
    (insert_then_scan mem relation rows fs0 slot (rows.length + 1)).failure = none ∧
    (insert_then_scan mem relation rows fs0 slot (rows.length + 1)).slot.tts_empty = true := by
  have hne : relation.rd_att ≠ [] := List.length_pos.mp hatt
  obtain ⟨h1, h2⟩ := scan_calls_rows mem relation.rd_att hne hbv rows _ slot
    (beginscan_after_inserts mem relation rows fs0 hnn hempty hopen) hdesc
  refine ⟨(insert_rows_nonnull mem relation rows fs0 hnn).1, ?_, h2⟩
  intro k row hk
  obtain ⟨g1, g2, g3⟩ := h1 k row hk
  refine ⟨g1, g2, ?_⟩
  intro a ha j hj
  apply g3 a ha j
  rw [(size_t_of_fixedByVal _ (hbv _ (attrAt_mem relation.rd_att a ha))).1]
  omega

/-- Witness of C5 (as amended): the `(int4, int4)` table just created, with the
rows `(1,10)`, `(2,20)`, `(3,30)`, scans as `(1,10)`, `(2,20)`, `(3,30)` and
then ends. -/
theorem full_scan_returns_rows_in_insertion_order_witness :
    (0 < relII.natts ∧ (∀ attr ∈ relII.rd_att, FixedByVal attr) ∧
      (∀ row ∈ rows123, NoNulls relII.natts row) ∧
      (∀ a, a < relII.natts → noFiles a = []) ∧
      (rows123 ≠ [] ∨ ∀ a, a < relII.natts → noFiles.present a = true) ∧
      (blankSlot relII.rd_att).tts_tupleDescriptor = relII.rd_att) ∧
    ((insert_rows zeroMemory relII rows123 noFiles).failure = none ∧
      (∀ k row, rows123[k]? = some row →
        (insert_then_scan zeroMemory relII rows123 noFiles (blankSlot relII.rd_att)
          (k + 1)).failure = none ∧
        (insert_then_scan zeroMemory relII rows123 noFiles (blankSlot relII.rd_att)
          (k + 1)).slot.tts_empty = false ∧
        ∀ a, a < relII.natts → ∀ j : Nat, (j : Int) < (attrAt relII.rd_att a).attlen →
          (insert_then_scan zeroMemory relII rows123 noFiles (blankSlot relII.rd_att)
              (k + 1)).slot.tts_values (8 * a + j)
            = row.tts_values (8 * a + j)) ∧
      (insert_then_scan zeroMemory relII rows123 noFiles (blankSlot relII.rd_att)
        (rows123.length + 1)).failure = none ∧
      (insert_then_scan zeroMemory relII rows123 noFiles (blankSlot relII.rd_att)
        (rows123.length + 1)).slot.tts_empty = true) ∧
    (List.range 3).map (fun k =>
      (wordAt (insert_then_scan zeroMemory relII rows123 noFiles (blankSlot relII.rd_att)
          (k + 1)).slot.tts_values 0,
       wordAt (insert_then_scan zeroMemory relII rows123 noFiles (blankSlot relII.rd_att)
          (k + 1)).slot.tts_values 1)) = [(1, 10), (2, 20), (3, 30)] :=
  ⟨⟨by decide, by decide, by decide, fun _ _ => rfl, Or.inl (fun h => List.noConfusion h),
      rfl⟩,
   full_scan_returns_rows_in_insertion_order zeroMemory relII rows123 noFiles
     (blankSlot relII.rd_att) (by decide) (by decide) (by decide) (fun _ _ => rfl)
     (Or.inl (fun h => List.noConfusion h)) rfl,
   by decide⟩

/-- C5 (counterexample). Two inputs that meet every hypothesis of the claim.
On the table without attributes one row is inserted, and the second call of
the full scan (the call after the last row) still returns a non-empty slot: no
column file exists whose end could stop the scan.  On the `(int4, int4)` table
just created, with no row inserted, the first call of the full scan does not
return the empty slot: no column file was ever created, `fopen` gave `NULL`
for both attributes and the call reads through the `NULL` stream. -/
theorem scan_of_table_without_attributes_does_not_end :
    (∀ attr ∈ relNone.rd_att, FixedByVal attr) ∧
    (∀ row ∈ rowsNone, NoNulls relNone.natts row) ∧
    (insert_rows zeroMemory relNone rowsNone noFiles).failure = none ∧
    (insert_then_scan zeroMemory relNone rowsNone noFiles (blankSlot relNone.rd_att)
      (rowsNone.length + 1)).failure = none ∧
    (insert_then_scan zeroMemory relNone rowsNone noFiles (blankSlot relNone.rd_att)
      (rowsNone.length + 1)).slot.tts_empty = false ∧
    (∀ attr ∈ relII.rd_att, FixedByVal attr) ∧
    (insert_rows zeroMemory relII [] noFiles).failure = none ∧
    (zedstoream_beginscan relII (insert_rows zeroMemory relII [] noFiles).files).fds 0 = none ∧
    (insert_then_scan zeroMemory relII [] noFiles (blankSlot relII.rd_att) 1).failure
      = some Failure.undefined_behaviour := by
  decide

/-- C6 (failing input). On the `(int4, int8)` table with the rows `(1,10)`,
`(2,20)` a scan projected on attribute 1 reads from the file of attribute 1
records of the width of attribute 0 (4 bytes, taken from `attrs[i]` with `i`
the position in the projection list): the second row it returns holds 0 in
slot 1, not 20 as the second inserted row and the full scan do, and it returns
four rows instead of two. -/
theorem projected_scan_reads_with_wrong_width :
    (∀ attr ∈ relIL.rd_att, FixedByVal attr) ∧
    (insert_rows zeroMemory relIL rowsIL emptyFiles).failure = none ∧
    (zedstoream_beginscan_with_column_projection relIL filesIL (some maskSecond)).proj_atts
      = [1] ∧
    (scan_calls 2 (zedstoream_beginscan_with_column_projection relIL filesIL (some maskSecond))
      (blankSlot relIL.rd_att)).failure = none ∧
    (scan_calls 2 (zedstoream_beginscan_with_column_projection relIL filesIL (some maskSecond))
      (blankSlot relIL.rd_att)).slot.tts_empty = false ∧
    wordAt (scan_calls 2
      (zedstoream_beginscan_with_column_projection relIL filesIL (some maskSecond))
      (blankSlot relIL.rd_att)).slot.tts_values 1 = 0 ∧
    wordAt (rowOf relIL.rd_att [2, 20]).tts_values 1 = 20 ∧
    wordAt (scan_calls 2 (zedstoream_beginscan relIL filesIL)
      (blankSlot relIL.rd_att)).slot.tts_values 1 = 20 ∧
    (scan_calls 4 (zedstoream_beginscan_with_column_projection relIL filesIL (some maskSecond))
      (blankSlot relIL.rd_att)).slot.tts_empty = false ∧
    (scan_calls 3 (zedstoream_beginscan relIL filesIL)
      (blankSlot relIL.rd_att)).slot.tts_empty = true := by
  decide

/-- C7. Projection isolation: for every table, every column files and every
projection mask (`none` for `NULL`), an attribute that the mask does not select
(or that lies past the last attribute) gets no read handle from
`zedstoream_beginscan_with_column_projection`, is absent from the projection
list, and after any number `k` of `zedstoream_getnextslot` calls still has no
handle: no read is ever issued against its column file, whose content the scan
cannot change (the column files are not written by the read path). -/
theorem projection_isolation (relation : RelationData) (fs : Files)
    (pc : Option (Nat → Bool)) (slot : TupleTableSlot) (k a : Nat)
    (hout : relation.natts ≤ a ∨ selects pc a = false) :
    (zedstoream_beginscan_with_column_projection relation fs pc).fds a = none ∧
    a ∉ (zedstoream_beginscan_with_column_projection relation fs pc).proj_atts ∧
    (scan_calls k (zedstoream_beginscan_with_column_projection relation fs pc) slot).scan.fds a
      = none := by
  obtain ⟨_, h2, _, h4⟩ := beginscan_spec relation fs pc
  have hnone : (zedstoream_beginscan_with_column_projection relation fs pc).fds a = none := by
    rw [h4 a]
    have hno : ¬ (a < relation.natts ∧ selects pc a = true) := by
      rcases hout with h | h
      · omega
      · simp [h]
    rw [if_neg hno]
  have hnotin : a ∉ (zedstoream_beginscan_with_column_projection relation fs pc).proj_atts := by
    rw [h2]
    intro hmem
    rw [List.mem_filter, List.mem_range] at hmem
    rcases hout with h | h
    · omega
    · simp [h] at hmem
  refine ⟨hnone, hnotin, ?_⟩
  rw [(scan_calls_frame k _ slot).2.2 a hnotin]
  exact hnone

/-- Witness of C7: the scan of `(int4, int4)` projected on attribute 1 never
opens the file of attribute 0, here over three calls. -/
theorem projection_isolation_witness :
    (relII.natts ≤ 0 ∨ selects (some maskSecond) 0 = false) ∧
    (zedstoream_beginscan_with_column_projection relII files123 (some maskSecond)).fds 0 = none ∧
    0 ∉ (zedstoream_beginscan_with_column_projection relII files123 (some maskSecond)).proj_atts ∧
    (scan_calls 3 (zedstoream_beginscan_with_column_projection relII files123 (some maskSecond))
      (blankSlot relII.rd_att)).scan.fds 0 = none :=
  ⟨Or.inr (by decide),
   projection_isolation relII files123 (some maskSecond) (blankSlot relII.rd_att) 3 0
     (Or.inr (by decide))⟩

/-- C10 (as amended). Empty-table estimate: for every table whose actual page
count is 0 and whose catalog entry records a page count other than 0 or
carries the sub-relation flag, whatever the recorded tuple and all-visible
counts and the attribute widths, `zedstoream_estimate_rel_size` returns
`pages = 0`, `tuples = 0` and `allvisfrac = 0`. -/
theorem empty_table_estimate (layout : PageLayout) (rd_rel : FormData_pg_class)
    (get_rel_data_width : List Int → Int) (attr_widths : List Int)
    (hcat : toBlockNumber rd_rel.relpages ≠ 0 ∨ rd_rel.relhassubclass = true) :
    (zedstoream_estimate_rel_size layout 0 rd_rel get_rel_data_width attr_widths).pages = 0 ∧
    (zedstoream_estimate_rel_size layout 0 rd_rel get_rel_data_width attr_widths).tuples = 0 ∧
    (zedstoream_estimate_rel_size layout 0 rd_rel get_rel_data_width attr_widths).allvisfrac
      = 0 := by
  have hno : ¬ (0 < 10 ∧ toBlockNumber rd_rel.relpages = 0 ∧ rd_rel.relhassubclass = false) := by
    rintro ⟨_, h1, h2⟩
    rcases hcat with h | h
    · exact h h1
    · rw [h2] at h; exact Bool.noConfusion h
  unfold zedstoream_estimate_rel_size
  simp only [if_neg hno, if_true]
  exact ⟨trivial, trivial, trivial⟩

/-- Witness of C10 (as amended): no actual page, 3 recorded pages. -/
theorem empty_table_estimate_witness :
    (toBlockNumber analyzedClass.relpages ≠ 0 ∨ analyzedClass.relhassubclass = true) ∧
    (zedstoream_estimate_rel_size defaultLayout 0 analyzedClass sumWidths [4, 4]).pages = 0 ∧
    (zedstoream_estimate_rel_size defaultLayout 0 analyzedClass sumWidths [4, 4]).tuples = 0 ∧
    (zedstoream_estimate_rel_size defaultLayout 0 analyzedClass sumWidths [4, 4]).allvisfrac
      = 0 :=
  ⟨Or.inl (by decide),
   empty_table_estimate defaultLayout analyzedClass sumWidths [4, 4] (Or.inl (by decide))⟩

/-- C10 (counterexample). A table with no actual page whose catalog entry
records no page and no sub-relation is estimated at 10 pages and, with two
4-byte attributes, at 2260 tuples: the minimum-size heuristic fires before the
test for an empty relation. -/
theorem fresh_empty_table_is_estimated_at_ten_pages :
    (zedstoream_estimate_rel_size defaultLayout 0 freshClass sumWidths [4, 4]).pages = 10 ∧
    (zedstoream_estimate_rel_size defaultLayout 0 freshClass sumWidths [4, 4]).pages ≠ 0 ∧
    (zedstoream_estimate_rel_size defaultLayout 0 freshClass sumWidths [4, 4]).tuples = 2260 ∧
    (zedstoream_estimate_rel_size defaultLayout 0 freshClass sumWidths [4, 4]).tuples ≠ 0 := by
  have hw : size_t_of (defaultLayout.BLCKSZ - defaultLayout.SizeOfPageHeaderData)
      / size_t_of (toInt32 (toInt32 (sumWidths [4, 4]
          + defaultLayout.MAXALIGN_SizeofHeapTupleHeader) + defaultLayout.sizeof_ItemIdData))
      = 226 := by decide
  have ht : (zedstoream_estimate_rel_size defaultLayout 0 freshClass sumWidths [4, 4]).tuples
      = 2260 := by
    unfold zedstoream_estimate_rel_size
    have hc : (0 < 10 ∧ toBlockNumber freshClass.relpages = 0 ∧ freshClass.relhassubclass = false) := by
      decide
    have hp : ¬ (toBlockNumber freshClass.relpages > 0) := by decide
    simp only [if_pos hc, if_neg hp, hw]
    norm_num [rint]
  refine ⟨by decide, by decide, ht, ?_⟩
  rw [ht]
  norm_num

/-- C11. All-visible fraction is a fraction: for every actual page count,
every catalog state (recorded page count, tuple count, all-visible count,
sub-relation flag), every page layout and every attribute-width array, the
`allvisfrac` returned by `zedstoream_estimate_rel_size` satisfies
`0 ≤ allvisfrac ≤ 1` over exact rational arithmetic; it is 0 when the recorded
all-visible count (as a `BlockNumber`) is 0 or the reported `pages` is 0, 1
when that count is at least `pages`, and `count / pages` otherwise. -/
theorem allvisfrac_is_a_fraction (layout : PageLayout) (nblocks : Nat)
    (rd_rel : FormData_pg_class) (get_rel_data_width : List Int → Int)
    (attr_widths : List Int) :
    0 ≤ (zedstoream_estimate_rel_size layout nblocks rd_rel get_rel_data_width
      attr_widths).allvisfrac ∧
    (zedstoream_estimate_rel_size layout nblocks rd_rel get_rel_data_width
      attr_widths).allvisfrac ≤ 1 ∧
    (zedstoream_estimate_rel_size layout nblocks rd_rel get_rel_data_width attr_widths).allvisfrac
      = if toBlockNumber rd_rel.relallvisible = 0 ∨
          (zedstoream_estimate_rel_size layout nblocks rd_rel get_rel_data_width
            attr_widths).pages = 0 then 0
        else if (zedstoream_estimate_rel_size layout nblocks rd_rel get_rel_data_width
            attr_widths).pages ≤ toBlockNumber rd_rel.relallvisible then 1
        else (toBlockNumber rd_rel.relallvisible : ℚ)
          / ((zedstoream_estimate_rel_size layout nblocks rd_rel get_rel_data_width
              attr_widths).pages : ℚ) := by
  have h := estimate_allvisfrac layout nblocks rd_rel get_rel_data_width attr_widths
  have hb := fraction_bounds (toBlockNumber rd_rel.relallvisible)
    (zedstoream_estimate_rel_size layout nblocks rd_rel get_rel_data_width attr_widths).pages
  rw [← h] at hb
  exact ⟨hb.1, hb.2, h⟩

end ZedStore
